import Mathlib

/-!
# Verification of the advanced-data-structures collection engines

Shallow embedding of the three engines of the repository
(`data_structures/b_tree.py`, `data_structures/red_black_tree.py`,
`data_structures/xor_linked_list.py`) and proofs that settle the frozen
claims of the specification against them.

Conventions used throughout:

* Python lists of keys/children become Lean `List`s; in-place mutation
  becomes functional update.
* Python recursion and `while` loops become recursion on an explicit
  depth counter (`fuel`); every execution appearing in a theorem uses a
  counter large enough that the countdown never reaches zero, so the
  embedded run coincides with the Python run.
* Python `raise` becomes an error value (`Bool` success flag or an
  `Except`/`Option` error); mutations performed before the `raise`
  persist in the returned state, exactly as they do on the Python heap.
* Memory addresses (`id(node)` in `xor_linked_list.py`) become stable
  integer handles into an arena, handle `0` playing the role of the null
  address, as the specification's design notes prescribe.
-/

/-! ## B-tree (`data_structures/b_tree.py`)

`Node` has `keys`, `children` and a `leaf` flag. -/

inductive BNode where
  | mk : List Int → List BNode → Bool → BNode

instance : Inhabited BNode := ⟨.mk [] [] true⟩

def BNode.keys : BNode → List Int
  | .mk ks _ _ => ks

def BNode.children : BNode → List BNode
  | .mk _ cs _ => cs

def BNode.leaf : BNode → Bool
  | .mk _ _ l => l

/-- Replace child `i` of `x` (functional form of `x.children[i] = c`). -/
def BNode.setChild (x : BNode) (i : Nat) (c : BNode) : BNode :=
  .mk x.keys (x.children.set i c) x.leaf

/-- Replace key `i` of `x` (functional form of `x.keys[i] = k`). -/
def BNode.setKey (x : BNode) (i : Nat) (k : Int) : BNode :=
  .mk (x.keys.set i k) x.children x.leaf

/-- `BTree._split_child(x, i)`: the embedded split.  Mirrors the source
line by line: `z.keys = y.keys[t:]`, `y.keys = y.keys[:t-1]`, child
lists split at `t` when internal, then `x.keys.insert(i, y.keys.pop())`
and `x.children.insert(i + 1, z)`. -/
def splitChild (t : Nat) (x : BNode) (i : Nat) : BNode :=
  let y := x.children.getD i default
  let z : BNode := .mk (y.keys.drop t)
    (if y.leaf then [] else y.children.drop t) y.leaf
  let yKeys := y.keys.take (t - 1)
  let yChildren := if y.leaf then y.children else y.children.take t
  let promoted := yKeys.getLastD 0
  let y' : BNode := .mk yKeys.dropLast yChildren y.leaf
  .mk (x.keys.insertIdx i promoted)
    ((x.children.set i y').insertIdx (i + 1) z) x.leaf

/-- Final value of `i + 1` after the backward scan
`while i >= 0 and k < x.keys[i]: i -= 1` of `_insert_non_full`:
the number of keys that are not strictly greater than `k` counted from
the right end. -/
def insertPos (keys : List Int) (k : Int) : Nat :=
  keys.length - (keys.reverse.takeWhile (fun x => k < x)).length

/-- `BTree._insert_non_full`. -/
def insertNonFull (t : Nat) : Nat → BNode → Int → BNode
  | 0, x, _ => x
  | fuel + 1, x, k =>
    if x.leaf then
      .mk (x.keys.insertIdx (insertPos x.keys k) k) x.children x.leaf
    else
      let i := insertPos x.keys k
      if (x.children.getD i default).keys.length == 2 * t - 1 then
        let x' := splitChild t x i
        let i' := if x'.keys.getD i 0 < k then i + 1 else i
        x'.setChild i' (insertNonFull t fuel (x'.children.getD i' default) k)
      else
        x.setChild i (insertNonFull t fuel (x.children.getD i default) k)

/-- `BTree.insert`: split a full root first, then insert. -/
def btInsert (t fuel : Nat) (root : BNode) (k : Int) : BNode :=
  if root.keys.length == 2 * t - 1 then
    let newRoot : BNode := .mk [] [root] false
    insertNonFull t fuel (splitChild t newRoot 0) k
  else
    insertNonFull t fuel root k

/-- Final value of `i` after the forward scan
`while i < len(x.keys) and k > x.keys[i]: i += 1`. -/
def searchIdx (keys : List Int) (k : Int) : Nat :=
  (keys.takeWhile (fun x => x < k)).length

/-- `BTree._search`, returning only presence (`read` discards the
node/index pair). -/
def btSearch (fuel : Nat) (x : BNode) (k : Int) : Bool :=
  match fuel with
  | 0 => false
  | fuel + 1 =>
    let i := searchIdx x.keys k
    if i < x.keys.length && x.keys.getD i 0 == k then true
    else if x.leaf then false
    else btSearch fuel (x.children.getD i default) k

/-- `BTree.read`. -/
def btRead (fuel : Nat) (root : BNode) (k : Int) : Bool :=
  btSearch fuel root k

/-- `BTree._merge_children(x, i)`: absorb the separator key and the
`i+1`-st child into the `i`-th child.  The `self.root` replacement check
at the end of the Python method is performed by the callers (it fires
only when `x` is the root object). -/
def mergeChildren (x : BNode) (i : Nat) : BNode :=
  let child := x.children.getD i default
  let sibling := x.children.getD (i + 1) default
  let child' : BNode := .mk (child.keys ++ [x.keys.getD i 0] ++ sibling.keys)
    (if child.leaf then child.children else child.children ++ sibling.children)
    child.leaf
  .mk (x.keys.eraseIdx i) ((x.children.set i child').eraseIdx (i + 1)) x.leaf

/-- `BTree._borrow_from_prev(x, i)`. -/
def borrowFromPrev (x : BNode) (i : Nat) : BNode :=
  let child := x.children.getD i default
  let sibling := x.children.getD (i - 1) default
  let child' : BNode := .mk (x.keys.getD (i - 1) 0 :: child.keys)
    (if child.leaf then child.children
     else sibling.children.getLastD default :: child.children) child.leaf
  let sibling' : BNode := .mk sibling.keys.dropLast
    (if child.leaf then sibling.children else sibling.children.dropLast)
    sibling.leaf
  .mk (x.keys.set (i - 1) (sibling.keys.getLastD 0))
    ((x.children.set i child').set (i - 1) sibling') x.leaf

/-- `BTree._borrow_from_next(x, i)`. -/
def borrowFromNext (x : BNode) (i : Nat) : BNode :=
  let child := x.children.getD i default
  let sibling := x.children.getD (i + 1) default
  let child' : BNode := .mk (child.keys ++ [x.keys.getD i 0])
    (if child.leaf then child.children
     else child.children ++ [sibling.children.headD default]) child.leaf
  let sibling' : BNode := .mk sibling.keys.tail
    (if child.leaf then sibling.children else sibling.children.tail)
    sibling.leaf
  .mk (x.keys.set i (sibling.keys.headD 0))
    ((x.children.set i child').set (i + 1) sibling') x.leaf

/-- `BTree._fill_child(x, i)`. -/
def fillChild (t : Nat) (x : BNode) (i : Nat) : BNode :=
  if i != 0 && decide (t ≤ (x.children.getD (i - 1) default).keys.length) then
    borrowFromPrev x i
  else if i != x.children.length - 1 &&
      decide (t ≤ (x.children.getD (i + 1) default).keys.length) then
    borrowFromNext x i
  else if i != x.children.length - 1 then
    mergeChildren x i
  else
    mergeChildren x (i - 1)

/-- The `while not curr.leaf: curr = curr.children[-1]` walk of
`_get_predecessor`. -/
def maxWalk : Nat → BNode → BNode
  | 0, c => c
  | fuel + 1, c => if c.leaf then c else maxWalk fuel (c.children.getLastD default)

/-- The `while not curr.leaf: curr = curr.children[0]` walk of
`_get_successor`. -/
def minWalk : Nat → BNode → BNode
  | 0, c => c
  | fuel + 1, c => if c.leaf then c else minWalk fuel (c.children.headD default)

/-- `BTree._get_predecessor(x, i)`. -/
def getPredecessor (fuel : Nat) (x : BNode) (i : Nat) : Int :=
  (maxWalk fuel (x.children.getD i default)).keys.getLastD 0

/-- `BTree._get_successor(x, i)`. -/
def getSuccessor (fuel : Nat) (x : BNode) (i : Nat) : Int :=
  (minWalk fuel (x.children.getD (i + 1) default)).keys.headD 0

mutual

/-- `BTree._delete_key(x, k)`.  Returns the updated subtree together
with a success flag (`false` = the Python code raised
`ValueError("Key not found in tree")`); mutations made before the raise
persist in the returned node, as they do on the Python heap.  `isRoot`
records whether `x` is the tree's root object, which is what the
`x == self.root` identity test inside `_merge_children` checks; when a
merge empties the root's key list the merged child becomes the new root
and is returned directly. -/
def deleteKey (t : Nat) : Nat → Bool → BNode → Int → BNode × Bool
  | 0, _, x, _ => (x, false)
  | fuel + 1, isRoot, x, k =>
    let i := searchIdx x.keys k
    if x.leaf then
      if i < x.keys.length && x.keys.getD i 0 == k then
        (.mk (x.keys.eraseIdx i) x.children x.leaf, true)
      else
        (x, false)
    else
      if i < x.keys.length && x.keys.getD i 0 == k then
        deleteInternal t fuel isRoot x k i
      else
        let i := if i == x.keys.length then i - 1 else i
        let filled := (x.children.getD i default).keys.length < t
        let x' := if filled then fillChild t x i else x
        let j := if x'.keys.length < i then i - 1 else i
        let res := deleteKey t fuel false (x'.children.getD j default) k
        if isRoot && filled && x'.keys.isEmpty && !x.keys.isEmpty then
          res
        else
          (x'.setChild j res.1, res.2)

/-- `BTree._delete_from_internal_node(x, k, i)` (same return/`isRoot`
conventions as `deleteKey`). -/
def deleteInternal (t : Nat) : Nat → Bool → BNode → Int → Nat → BNode × Bool
  | 0, _, x, _, _ => (x, false)
  | fuel + 1, isRoot, x, k, i =>
    if !(x.children.getD i default).keys.isEmpty then
      let pred := getPredecessor (fuel + 1) x i
      let x' := x.setKey i pred
      let res := deleteKey t fuel false (x'.children.getD i default) pred
      (x'.setChild i res.1, res.2)
    else if !(x.children.getD (i + 1) default).keys.isEmpty then
      let succ := getSuccessor (fuel + 1) x i
      let x' := x.setKey i succ
      let res := deleteKey t fuel false (x'.children.getD (i + 1) default) succ
      (x'.setChild (i + 1) res.1, res.2)
    else
      let x' := mergeChildren x i
      let res := deleteKey t fuel false (x'.children.getD i default) k
      if isRoot && x'.keys.isEmpty && !x.keys.isEmpty then
        res
      else
        (x'.setChild i res.1, res.2)

end

/-- `BTree.delete`: `self._delete_key(self.root, k)`. -/
def btDelete (t fuel : Nat) (root : BNode) (k : Int) : BNode × Bool :=
  deleteKey t fuel true root k

/-- Insert a whole sequence of keys, as the benchmark harness and the
specification scenarios do. -/
def btInsertSeq (t fuel : Nat) (root : BNode) (ks : List Int) : BNode :=
  ks.foldl (fun r k => btInsert t fuel r k) root

/-- The empty tree `BTree.__init__` starts from: a single leaf root. -/
def btEmpty : BNode := .mk [] [] true

/-! ## XOR linked list (`data_structures/xor_linked_list.py`)

Following the specification's design notes, the raw memory addresses
that the Python code obtains from `id(node)` are modelled by stable
integer handles into an arena: the node allocated `n`-th lives at arena
index `n` and has handle `n + 1`, so that handle `0` plays the role of
the null address (`self._get_ptr(None) == 0`).  A node's `npx` field
stores the XOR of its two neighbours' handles, exactly as the source
stores the XOR of their addresses, and `self._nodes` (the keep-alive
list preventing garbage collection) is the list of handles in insertion
order. -/

structure LNode where
  data : Int
  npx : Nat
deriving DecidableEq

structure XORList where
  arena : List LNode
  head : Nat
  tail : Nat
  nodes : List Nat
deriving DecidableEq

/-- The two `IndexError` messages the source raises:
`"List is empty"` and `"Position out of range"`. -/
inductive ListErr where
  | emptyCollection
  | positionOutOfRange
deriving DecidableEq

/-- `XORLinkedList.__init__`. -/
def xorEmpty : XORList := ⟨[], 0, 0, []⟩

/-- `self._get_node(ptr)` (handle `0` = null; an unallocated handle
yields a dummy node, which no execution appearing in a theorem ever
dereferences). -/
def getNode (a : List LNode) (h : Nat) : LNode :=
  a.getD (h - 1) ⟨0, 0⟩

/-- Write the `npx` field of the node with handle `h`. -/
def setNpx (a : List LNode) (h : Nat) (v : Nat) : List LNode :=
  a.set (h - 1) ⟨(getNode a h).data, v⟩

/-- The traversal loop shared by `insert`/`read`/`delete`:

    while current and count < position:
        next_ptr = prev_ptr ^ current.npx
        if not next_ptr:
            raise IndexError("Position out of range")
        prev_ptr = self._get_ptr(current)
        current = self._get_node(next_ptr)
        count += 1

`steps` is the number of remaining iterations (`position - count`,
clamped at zero); the result is the final `(prev_ptr, current)` pair. -/
def xorTraverse (a : List LNode) : Nat → Nat → Nat → Except ListErr (Nat × Nat)
  | prev, cur, 0 => .ok (prev, cur)
  | prev, cur, steps + 1 =>
    if cur == 0 then .ok (prev, cur)
    else
      let next := Nat.xor prev (getNode a cur).npx
      if next == 0 then .error .positionOutOfRange
      else xorTraverse a cur next steps

/-- `XORLinkedList.read(position)`.  The position is an integer, as in
Python; for `position <= 0` the loop body never runs. -/
def xorRead (l : XORList) (position : Int) : Except ListErr Int :=
  if l.head == 0 then .error .emptyCollection
  else
    match xorTraverse l.arena 0 l.head position.toNat with
    | .error e => .error e
    | .ok (_, cur) =>
      if cur == 0 then .error .positionOutOfRange
      else .ok (getNode l.arena cur).data

/-- `XORLinkedList.insert(data, position)`.  Returns the new state and
`some` error when the Python code raises; the freshly allocated node is
already in the arena and in `self._nodes` at that point (the code
appends it before any bounds check), and those effects persist. -/
def xorInsert (l : XORList) (data : Int) (position : Option Int) :
    XORList × Option ListErr :=
  let newH := l.arena.length + 1
  let a0 := l.arena ++ [⟨data, 0⟩]
  let ns := l.nodes ++ [newH]
  if l.head == 0 then
    (⟨a0, newH, newH, ns⟩, none)
  else if position == some 0 then
    let a1 := setNpx a0 newH l.head
    let a2 := setNpx a1 l.head (Nat.xor (getNode a1 l.head).npx newH)
    (⟨a2, newH, l.tail, ns⟩, none)
  else if position == none then
    let a1 := setNpx a0 newH l.tail
    let a2 := setNpx a1 l.tail (Nat.xor (getNode a1 l.tail).npx newH)
    (⟨a2, l.head, newH, ns⟩, none)
  else
    match xorTraverse a0 0 l.head (position.getD 0).toNat with
    | .error e => (⟨a0, l.head, l.tail, ns⟩, some e)
    | .ok (prev, cur) =>
      if cur == 0 then (⟨a0, l.head, l.tail, ns⟩, some .positionOutOfRange)
      else
        let next := Nat.xor prev (getNode a0 cur).npx
        let a1 := setNpx a0 newH (Nat.xor prev next)
        let a2 := if prev != 0 then
            setNpx a1 prev (Nat.xor (Nat.xor (getNode a1 prev).npx cur) newH)
          else a1
        let a3 := setNpx a2 cur (Nat.xor newH next)
        (⟨a3, l.head, l.tail, ns⟩, none)

/-- `XORLinkedList.delete(position)`.  Returns the new state and either
the removed value or the raised error; a failed call returns the state
unchanged (every `raise` in the source happens before any mutation). -/
def xorDelete (l : XORList) (position : Int) : XORList × Except ListErr Int :=
  if l.head == 0 then (l, .error .emptyCollection)
  else if position == 0 then
    let data := (getNode l.arena l.head).data
    let next := (getNode l.arena l.head).npx
    if next != 0 then
      let a1 := setNpx l.arena next (Nat.xor (getNode l.arena next).npx l.head)
      (⟨a1, next, l.tail, l.nodes⟩, .ok data)
    else
      (⟨l.arena, 0, 0, l.nodes⟩, .ok data)
  else
    match xorTraverse l.arena 0 l.head position.toNat with
    | .error e => (l, .error e)
    | .ok (prev, cur) =>
      if cur == 0 then (l, .error .positionOutOfRange)
      else
        let next := Nat.xor prev (getNode l.arena cur).npx
        let a1 := if prev != 0 then
            let b := setNpx l.arena prev (Nat.xor (getNode l.arena prev).npx cur)
            if next != 0 then setNpx b prev (Nat.xor (getNode b prev).npx next)
            else b
          else l.arena
        let a2 := if next != 0 then
            let b := setNpx a1 next (Nat.xor (getNode a1 next).npx cur)
            if prev != 0 then setNpx b next (Nat.xor (getNode b next).npx prev)
            else b
          else a1
        let tl := if cur == l.tail then prev else l.tail
        (⟨a2, l.head, tl, l.nodes.erase cur⟩, .ok (getNode a2 cur).data)

/-- The handle preceding position `i` of the chain `hs` (`0` before the
head, matching `prev_ptr = 0` at the start of every traversal). -/
def chainPrev (hs : List Nat) (i : Nat) : Nat :=
  if i = 0 then 0 else hs.getD (i - 1) 0

/-- Well-formedness of a list state: `hs` is the chain of handles of the
live nodes from head to tail.  Each handle is a valid nonzero arena
handle, handles are distinct, `head`/`tail` are the chain's ends (or `0`
when it is empty), and every node's combined field is the XOR of its
neighbours' handles (`0` at the ends) — the data-model invariant of the
specification.  Every component is decidable, so `wf` evaluates on
concrete states. -/
def wf (l : XORList) (hs : List Nat) : Prop :=
  (∀ h ∈ hs, 1 ≤ h ∧ h ≤ l.arena.length) ∧
  hs.Nodup ∧
  l.head = hs.getD 0 0 ∧
  l.tail = hs.getD (hs.length - 1) 0 ∧
  (∀ i < hs.length, (getNode l.arena (hs.getD i 0)).npx =
    Nat.xor (chainPrev hs i) (hs.getD (i + 1) 0))

instance (l : XORList) (hs : List Nat) : Decidable (wf l hs) := by
  unfold wf; infer_instance

/-- The abstract value sequence a well-formed state represents. -/
def absVals (l : XORList) (hs : List Nat) : List Int :=
  hs.map fun h => (getNode l.arena h).data

/-! ## Red-Black tree (`data_structures/red_black_tree.py`)

Nodes live in an arena; the node allocated `n`-th (counting the
sentinel, which `__init__` allocates first) has id `n + 1`.  Id `1` is
therefore the shared `NIL` sentinel and id `0` stands for Python's
`None` (the sentinel's own `left`/`right`/`parent` and the root's
`parent`).  `data` is `Option Int` because the sentinel holds `None`;
`color` is `Bool` with `true` = red, as in the source. -/

structure RBNode where
  data : Option Int
  color : Bool
  left : Option Nat
  right : Option Nat
  parent : Option Nat
deriving DecidableEq

structure RBT where
  arena : List RBNode
  root : Nat
deriving DecidableEq

/-- The sentinel record as `__init__` builds it. -/
def nilNode : RBNode := ⟨none, false, none, none, none⟩

/-- `RedBlackTree.__init__`: one sentinel, root = sentinel. -/
def rbEmpty : RBT := ⟨[nilNode], 1⟩

/-- Dereference a node id (`0`, Python's `None`, yields a dummy record;
no execution appearing in a theorem reads an attribute of `None`). -/
def nd (t : RBT) (i : Nat) : RBNode :=
  if i = 0 then nilNode else t.arena.getD (i - 1) nilNode

def pOf (t : RBT) (i : Nat) : Nat := ((nd t i).parent).getD 0
def lOf (t : RBT) (i : Nat) : Nat := ((nd t i).left).getD 0
def rOf (t : RBT) (i : Nat) : Nat := ((nd t i).right).getD 0

def setArena (t : RBT) (i : Nat) (n : RBNode) : RBT :=
  if i = 0 then t else ⟨t.arena.set (i - 1) n, t.root⟩

def setL (t : RBT) (i : Nat) (v : Option Nat) : RBT :=
  setArena t i { nd t i with left := v }

def setR (t : RBT) (i : Nat) (v : Option Nat) : RBT :=
  setArena t i { nd t i with right := v }

def setP (t : RBT) (i : Nat) (v : Option Nat) : RBT :=
  setArena t i { nd t i with parent := v }

def setC (t : RBT) (i : Nat) (v : Bool) : RBT :=
  setArena t i { nd t i with color := v }

/-- `node.data < x.data` (both operands are real nodes in every
execution appearing in a theorem, so both are `some`). -/
def oLt (a b : Option Int) : Bool :=
  match a, b with
  | some x, some y => decide (x < y)
  | _, _ => false

/-- `RedBlackTree._left_rotate(x)`, statement by statement. -/
def leftRotate (t : RBT) (x : Nat) : RBT :=
  let y := rOf t x
  let t := setR t x (nd t y).left
  let t := if lOf t y != 1 then setP t (lOf t y) (some x) else t
  let t := setP t y (nd t x).parent
  let t :=
    if pOf t x == 0 then ⟨t.arena, y⟩
    else if (nd t (pOf t x)).left == some x then setL t (pOf t x) (some y)
    else setR t (pOf t x) (some y)
  let t := setL t y (some x)
  setP t x (some y)

/-- `RedBlackTree._right_rotate(x)`. -/
def rightRotate (t : RBT) (x : Nat) : RBT :=
  let y := lOf t x
  let t := setL t x (nd t y).right
  let t := if rOf t y != 1 then setP t (rOf t y) (some x) else t
  let t := setP t y (nd t x).parent
  let t :=
    if pOf t x == 0 then ⟨t.arena, y⟩
    else if (nd t (pOf t x)).right == some x then setR t (pOf t x) (some y)
    else setL t (pOf t x) (some y)
  let t := setR t y (some x)
  setP t x (some y)

/-- The fix-up loop of `RedBlackTree._fix_insert(k)`; one call = one
test of `while k.parent and k.parent.color`, the `break` on
`k == self.root`, and finally `self.root.color = False`. -/
def rbFixInsert : Nat → RBT → Nat → RBT
  | 0, t, _ => t
  | fuel + 1, t, k =>
    if pOf t k != 0 && (nd t (pOf t k)).color then
      let step : RBT × Nat :=
        if (nd t (pOf t (pOf t k))).right == some (pOf t k) then
          let u := lOf t (pOf t (pOf t k))
          if (nd t u).color then
            let t := setC t u false
            let t := setC t (pOf t k) false
            let t := setC t (pOf t (pOf t k)) true
            (t, pOf t (pOf t k))
          else
            let step2 : RBT × Nat :=
              if (nd t (pOf t k)).left == some k then
                let k2 := pOf t k
                (rightRotate t k2, k2)
              else (t, k)
            let t := step2.1; let k := step2.2
            let t := setC t (pOf t k) false
            let t := setC t (pOf t (pOf t k)) true
            (leftRotate t (pOf t (pOf t k)), k)
        else
          let u := rOf t (pOf t (pOf t k))
          if (nd t u).color then
            let t := setC t u false
            let t := setC t (pOf t k) false
            let t := setC t (pOf t (pOf t k)) true
            (t, pOf t (pOf t k))
          else
            let step2 : RBT × Nat :=
              if (nd t (pOf t k)).right == some k then
                let k2 := pOf t k
                (leftRotate t k2, k2)
              else (t, k)
            let t := step2.1; let k := step2.2
            let t := setC t (pOf t k) false
            let t := setC t (pOf t (pOf t k)) true
            (rightRotate t (pOf t (pOf t k)), k)
      let t := step.1; let k := step.2
      if k == t.root then setC t t.root false
      else rbFixInsert fuel t k
    else
      setC t t.root false

/-- The descent loop of `RedBlackTree.insert` (`y` is the trailing
pointer, `x` the probe); returns the final `y`. -/
def rbDescend (t : RBT) (d : Option Int) : Nat → Nat → Nat → Nat
  | 0, y, _ => y
  | fuel + 1, y, x =>
    if x != 1 then
      if oLt d (nd t x).data then rbDescend t d fuel x (lOf t x)
      else rbDescend t d fuel x (rOf t x)
    else y

/-- `RedBlackTree.insert(data)`. -/
def rbInsert (t0 : RBT) (data : Int) : RBT :=
  let nid := t0.arena.length + 1
  let t : RBT := ⟨t0.arena ++ [⟨some data, true, some 1, some 1, none⟩], t0.root⟩
  let fuel := t.arena.length + 1
  let y := rbDescend t (some data) fuel 0 t.root
  let t := setP t nid (if y == 0 then none else some y)
  let t :=
    if y == 0 then ⟨t.arena, nid⟩
    else if oLt (some data) (nd t y).data then setL t y (some nid)
    else setR t y (some nid)
  rbFixInsert fuel t nid

/-- The search loop shared by `RedBlackTree.read` and `_find_node`;
returns the found node id (`none` = reached the sentinel). -/
def rbFind (t : RBT) (d : Int) : Nat → Nat → Option Nat
  | 0, _ => none
  | fuel + 1, x =>
    if x != 1 then
      if (nd t x).data == some d then some x
      else if oLt (some d) (nd t x).data then rbFind t d fuel (lOf t x)
      else rbFind t d fuel (rOf t x)
    else none

/-- `RedBlackTree.read(data)`. -/
def rbRead (t : RBT) (d : Int) : Bool :=
  (rbFind t d (t.arena.length + 1) t.root).isSome

/-- `RedBlackTree._minimum(node)`. -/
def rbMinimum (t : RBT) : Nat → Nat → Nat
  | 0, n => n
  | fuel + 1, n => if lOf t n != 1 then rbMinimum t fuel (lOf t n) else n

/-- `RedBlackTree._transplant(u, v)`. -/
def rbTransplant (t : RBT) (u v : Nat) : RBT :=
  let t :=
    if pOf t u == 0 then ⟨t.arena, v⟩
    else if (nd t (pOf t u)).left == some u then setL t (pOf t u) (some v)
    else setR t (pOf t u) (some v)
  setP t v (nd t u).parent

/-- The fix-up loop of `RedBlackTree._fix_delete(x)`. -/
def rbFixDelete : Nat → RBT → Nat → RBT
  | 0, t, _ => t
  | fuel + 1, t, x =>
    if x != t.root && (nd t x).color == false then
      if (nd t (pOf t x)).left == some x then
        let w := rOf t (pOf t x)
        let step : RBT × Nat :=
          if (nd t w).color then
            let t := setC t w false
            let t := setC t (pOf t x) true
            let t := leftRotate t (pOf t x)
            (t, rOf t (pOf t x))
          else (t, w)
        let t := step.1; let w := step.2
        if (nd t (lOf t w)).color == false && (nd t (rOf t w)).color == false then
          let t := setC t w true
          rbFixDelete fuel t (pOf t x)
        else
          let step2 : RBT × Nat :=
            if (nd t (rOf t w)).color == false then
              let t := setC t (lOf t w) false
              let t := setC t w true
              let t := rightRotate t w
              (t, rOf t (pOf t x))
            else (t, w)
          let t := step2.1; let w := step2.2
          let t := setC t w (nd t (pOf t x)).color
          let t := setC t (pOf t x) false
          let t := setC t (rOf t w) false
          let t := leftRotate t (pOf t x)
          rbFixDelete fuel t t.root
      else
        let w := lOf t (pOf t x)
        let step : RBT × Nat :=
          if (nd t w).color then
            let t := setC t w false
            let t := setC t (pOf t x) true
            let t := rightRotate t (pOf t x)
            (t, lOf t (pOf t x))
          else (t, w)
        let t := step.1; let w := step.2
        if (nd t (rOf t w)).color == false && (nd t (lOf t w)).color == false then
          let t := setC t w true
          rbFixDelete fuel t (pOf t x)
        else
          let step2 : RBT × Nat :=
            if (nd t (lOf t w)).color == false then
              let t := setC t (rOf t w) false
              let t := setC t w true
              let t := leftRotate t w
              (t, lOf t (pOf t x))
            else (t, w)
          let t := step2.1; let w := step2.2
          let t := setC t w (nd t (pOf t x)).color
          let t := setC t (pOf t x) false
          let t := setC t (lOf t w) false
          let t := rightRotate t (pOf t x)
          rbFixDelete fuel t t.root
    else
      setC t x false

/-- `RedBlackTree._delete_node(z)`. -/
def rbDeleteNode (t : RBT) (z : Nat) : RBT :=
  let fuel := t.arena.length + 1
  if lOf t z == 1 then
    let yc := (nd t z).color
    let x := rOf t z
    let t := rbTransplant t z (rOf t z)
    if yc == false then rbFixDelete fuel t x else t
  else if rOf t z == 1 then
    let yc := (nd t z).color
    let x := lOf t z
    let t := rbTransplant t z (lOf t z)
    if yc == false then rbFixDelete fuel t x else t
  else
    let y := rbMinimum t fuel (rOf t z)
    let yc := (nd t y).color
    let x := rOf t y
    let t :=
      if pOf t y == z then setP t x (some y)
      else
        let t := rbTransplant t y (rOf t y)
        let t := setR t y (nd t z).right
        setP t (rOf t y) (some y)
    let t := rbTransplant t z y
    let t := setL t y (nd t z).left
    let t := setP t (lOf t y) (some y)
    let t := setC t y (nd t z).color
    if yc == false then rbFixDelete fuel t x else t

/-- `RedBlackTree.delete(data)`: `false` = the source raised
`ValueError("Data not found in tree")`. -/
def rbDelete (t : RBT) (d : Int) : RBT × Bool :=
  match rbFind t d (t.arena.length + 1) t.root with
  | some z => (rbDeleteNode t z, true)
  | none => (t, false)

/-- Insert a whole sequence of keys. -/
def rbInsertSeq (t : RBT) (ks : List Int) : RBT :=
  ks.foldl rbInsert t


/-! ## Derived checkers used to state the claims -/

/-- Number of reachable nodes holding key `k` in a Red-Black tree
(walks `left`/`right` from the root, stopping at the sentinel). -/
def countKey (t : RBT) : Nat → Nat → Int → Nat
  | 0, _, _ => 0
  | fuel + 1, x, k =>
    if x == 1 || x == 0 then 0
    else (if (nd t x).data == some k then 1 else 0) +
      countKey t fuel (lOf t x) k + countKey t fuel (rOf t x) k

/-- The per-node B-tree conditions of the specification: every non-root
node holds between `t - 1` and `2t - 1` keys, and an internal node with
`k` keys has exactly `k + 1` children. -/
def btNodeOk (t : Nat) : Nat → Bool → BNode → Bool
  | 0, _, _ => false
  | fuel + 1, isRoot, x =>
    (isRoot || (decide (t - 1 ≤ x.keys.length) &&
      decide (x.keys.length ≤ 2 * t - 1))) &&
    (x.leaf || x.children.length == x.keys.length + 1) &&
    x.children.all (btNodeOk t fuel false)

/-- The depths of all leaves of a B-tree node. -/
def leafDepths : Nat → BNode → List Nat
  | 0, _ => []
  | fuel + 1, x =>
    if x.leaf then [0]
    else (x.children.map fun c => (leafDepths fuel c).map (· + 1)).flatten

/-- The B-tree structural invariant of the specification: key-count
bounds off the root, `k + 1` children per `k` keys, and all leaves at
equal depth. -/
def btOk (t fuel : Nat) (x : BNode) : Bool :=
  btNodeOk t fuel true x &&
  (leafDepths fuel x).all (fun d => d == (leafDepths fuel x).headD 0)

/-! ### Arena and chain lemmas for the XOR list -/

theorem xor_xor_cancel (a b : Nat) : Nat.xor a (Nat.xor a b) = b := by
  show a ^^^ (a ^^^ b) = b
  rw [← Nat.xor_assoc, Nat.xor_self, Nat.zero_xor]

theorem xor_cancel_right (a b : Nat) : Nat.xor (Nat.xor a b) b = a := by
  show a ^^^ b ^^^ b = a
  rw [Nat.xor_assoc, Nat.xor_self, Nat.xor_zero]

theorem length_setNpx (a : List LNode) (h v : Nat) :
    (setNpx a h v).length = a.length := by
  simp [setNpx]

theorem getD_set_self {α : Type} (l : List α) (i : Nat) (b d : α) (h : i < l.length) :
    (l.set i b).getD i d = b := by
  rw [List.getD_eq_getElem _ _ (by simpa using h), List.getElem_set_self]

theorem getD_set_ne {α : Type} (l : List α) (i j : Nat) (b d : α) (h : i ≠ j) :
    (l.set i b).getD j d = l.getD j d := by
  rcases Nat.lt_or_ge j l.length with hlt | hge
  · rw [List.getD_eq_getElem _ _ (by simpa using hlt),
      List.getD_eq_getElem _ _ hlt, List.getElem_set_ne h]
  · rw [List.getD_eq_default _ _ (by simpa using hge),
      List.getD_eq_default _ _ hge]

/-- `setNpx` never changes any `data` field (it targets at most the
slot it names, and there only the `npx` field changes). -/
theorem getNode_setNpx_data (a : List LNode) (h v h' : Nat) :
    (getNode (setNpx a h v) h').data = (getNode a h').data := by
  show ((setNpx a h v).getD (h' - 1) ⟨0, 0⟩).data = (a.getD (h' - 1) ⟨0, 0⟩).data
  unfold setNpx
  rcases eq_or_ne (h - 1) (h' - 1) with heq | hne
  · rcases Nat.lt_or_ge (h' - 1) a.length with hlt | hge
    · rw [heq, getD_set_self _ _ _ _ hlt]
      show (getNode a h).data = _
      unfold getNode
      rw [heq]
    · rw [List.getD_eq_default _ _ (by simpa using hge),
        List.getD_eq_default _ _ hge]
  · rw [getD_set_ne _ _ _ _ _ hne]

theorem getNode_setNpx_self (a : List LNode) (h v : Nat)
    (h1 : 1 ≤ h) (h2 : h ≤ a.length) :
    getNode (setNpx a h v) h = ⟨(getNode a h).data, v⟩ := by
  have hlt : h - 1 < a.length := by omega
  show (setNpx a h v).getD (h - 1) ⟨0, 0⟩ = _
  unfold setNpx
  rw [getD_set_self _ _ _ _ hlt]

theorem getNode_setNpx_ne (a : List LNode) (h v h' : Nat)
    (h1 : 1 ≤ h) (h1' : 1 ≤ h') (hne : h' ≠ h) :
    getNode (setNpx a h v) h' = getNode a h' := by
  show (setNpx a h v).getD (h' - 1) ⟨0, 0⟩ = a.getD (h' - 1) ⟨0, 0⟩
  unfold setNpx
  rw [getD_set_ne _ _ _ _ _ (by omega)]

/-- Appending fresh nodes to the arena does not change existing nodes. -/
theorem getNode_append (a e : List LNode) (h : Nat)
    (h1 : 1 ≤ h) (h2 : h ≤ a.length) :
    getNode (a ++ e) h = getNode a h := by
  unfold getNode
  rw [List.getD_append _ _ _ _ (by omega)]

theorem getD_mem {hs : List Nat} {i : Nat} (hi : i < hs.length) :
    hs.getD i 0 ∈ hs := by
  rw [List.getD_eq_getElem _ _ hi]
  exact List.getElem_mem hi

theorem nodup_getD_ne {hs : List Nat} (nd : hs.Nodup) {i j : Nat}
    (hi : i < hs.length) (hj : j < hs.length) (hij : i ≠ j) :
    hs.getD i 0 ≠ hs.getD j 0 := by
  rw [List.getD_eq_getElem _ _ hi, List.getD_eq_getElem _ _ hj]
  intro h
  exact hij (nd.getElem_inj_iff.mp h)

theorem getD_drop {α : Type} (d : α) (l : List α) (k i : Nat) :
    (l.drop k).getD i d = l.getD (k + i) d := by
  rcases Nat.lt_or_ge (k + i) l.length with hlt | hge
  · rw [List.getD_eq_getElem _ _ (by simp; omega),
      List.getD_eq_getElem _ _ hlt, List.getElem_drop]
  · rw [List.getD_eq_default _ _ (by simp; omega),
      List.getD_eq_default _ _ hge]

theorem getD_take {α : Type} (d : α) (l : List α) (k i : Nat) (h : i < k) :
    (l.take k).getD i d = l.getD i d := by
  rcases Nat.lt_or_ge i l.length with hlt | hge
  · rw [List.getD_eq_getElem _ _ (by simp; omega),
      List.getD_eq_getElem _ _ hlt, List.getElem_take]
  · rw [List.getD_eq_default _ _ (by simp; omega),
      List.getD_eq_default _ _ hge]

theorem getD_eraseIdx {α : Type} (d : α) (hs : List α) (m i : Nat)
    (hm : m < hs.length) :
    (hs.eraseIdx m).getD i d =
      if i < m then hs.getD i d else hs.getD (i + 1) d := by
  rw [List.eraseIdx_eq_take_drop_succ]
  split
  · next hlt =>
    rw [List.getD_append _ _ _ _ (by simp; omega), getD_take _ _ _ _ hlt]
  · next hge =>
    rw [List.getD_append_right _ _ _ _ (by simp; omega), getD_drop]
    congr 1
    simp
    omega

/-- Walking `steps` positions along a well-linked chain from position
`j` reaches position `j + steps`, with `prev_ptr` trailing one behind,
provided the target is still on the chain. -/
theorem xorTraverse_ok (a : List LNode) (hs : List Nat)
    (hz : ∀ h ∈ hs, h ≠ 0)
    (hnpx : ∀ i < hs.length, (getNode a (hs.getD i 0)).npx =
      Nat.xor (chainPrev hs i) (hs.getD (i + 1) 0)) :
    ∀ steps j, j + steps < hs.length →
    xorTraverse a (chainPrev hs j) (hs.getD j 0) steps =
      .ok (chainPrev hs (j + steps), hs.getD (j + steps) 0) := by
  intro steps
  induction steps with
  | zero => intro j _; rfl
  | succ n ih =>
    intro j hj
    have hjlt : j < hs.length := by omega
    have hcur : hs.getD j 0 ≠ 0 := hz _ (getD_mem hjlt)
    have hj1 : j + 1 < hs.length := by omega
    have hnext : hs.getD (j + 1) 0 ≠ 0 := hz _ (getD_mem hj1)
    unfold xorTraverse
    rw [if_neg (by simpa using hcur)]
    simp only [hnpx j hjlt, xor_xor_cancel]
    rw [if_neg (by simpa using hnext)]
    have hcp : hs.getD j 0 = chainPrev hs (j + 1) := by simp [chainPrev]
    rw [hcp, show j + (n + 1) = (j + 1) + n by omega]
    exact ih (j + 1) (by omega)

/-- Walking past the end of a well-linked chain raises
`IndexError("Position out of range")`. -/
theorem xorTraverse_oob (a : List LNode) (hs : List Nat)
    (hz : ∀ h ∈ hs, h ≠ 0)
    (hnpx : ∀ i < hs.length, (getNode a (hs.getD i 0)).npx =
      Nat.xor (chainPrev hs i) (hs.getD (i + 1) 0)) :
    ∀ steps j, j < hs.length → hs.length ≤ j + steps →
    xorTraverse a (chainPrev hs j) (hs.getD j 0) steps =
      .error .positionOutOfRange := by
  intro steps
  induction steps with
  | zero => intro j hj hge; omega
  | succ n ih =>
    intro j hj hge
    have hcur : hs.getD j 0 ≠ 0 := hz _ (getD_mem hj)
    unfold xorTraverse
    rw [if_neg (by simpa using hcur)]
    simp only [hnpx j hj, xor_xor_cancel]
    rcases Nat.lt_or_ge (j + 1) hs.length with hlt | hge1
    · have hnext : hs.getD (j + 1) 0 ≠ 0 := hz _ (getD_mem hlt)
      rw [if_neg (by simpa using hnext)]
      have hcp : hs.getD j 0 = chainPrev hs (j + 1) := by simp [chainPrev]
      rw [hcp]
      exact ih (j + 1) hlt (by omega)
    · rw [List.getD_eq_default _ _ hge1]
      rfl

theorem absVals_getD (l : XORList) (hs : List Nat) (m : Nat)
    (hm : m < hs.length) :
    (absVals l hs).getD m 0 = (getNode l.arena (hs.getD m 0)).data := by
  unfold absVals
  rw [List.getD_eq_getElem _ _ (by simpa using hm), List.getElem_map,
    List.getD_eq_getElem _ _ hm]

/-- `read` at any in-range position (negative positions clamp to the
head) returns the value the chain holds there. -/
theorem xorRead_ok (l : XORList) (hs : List Nat) (w : wf l hs) (p : Int)
    (hp : p.toNat < hs.length) :
    xorRead l p = .ok ((absVals l hs).getD p.toNat 0) := by
  obtain ⟨hv, hnd, hhead, htail, hnpx⟩ := w
  have hz : ∀ h ∈ hs, h ≠ 0 := fun h hm => by have := (hv h hm).1; omega
  have h0 : 0 < hs.length := by omega
  have hh0 : l.head ≠ 0 := by rw [hhead]; exact hz _ (getD_mem h0)
  have ht := xorTraverse_ok l.arena hs hz hnpx p.toNat 0 (by omega)
  rw [show chainPrev hs 0 = 0 from rfl, Nat.zero_add] at ht
  have hc : hs.getD p.toNat 0 ≠ 0 := hz _ (getD_mem hp)
  unfold xorRead
  rw [if_neg (by simpa using hh0), hhead, ht]
  rw [show ((Except.ok (chainPrev hs p.toNat, hs.getD p.toNat 0) :
      Except ListErr (Nat × Nat))) = .ok (chainPrev hs p.toNat, hs.getD p.toNat 0)
    from rfl]
  simp only []
  rw [if_neg (by simpa using hc), absVals_getD _ _ _ hp]

/-- `read` past the end of a non-empty list raises
`IndexError("Position out of range")`. -/
theorem xorRead_oob (l : XORList) (hs : List Nat) (w : wf l hs)
    (hne : hs ≠ []) (p : Int) (hp : hs.length ≤ p.toNat) :
    xorRead l p = .error .positionOutOfRange := by
  obtain ⟨hv, hnd, hhead, htail, hnpx⟩ := w
  have hz : ∀ h ∈ hs, h ≠ 0 := fun h hm => by have := (hv h hm).1; omega
  have h0 : 0 < hs.length := List.length_pos.mpr hne
  have hh0 : l.head ≠ 0 := by rw [hhead]; exact hz _ (getD_mem h0)
  have ht := xorTraverse_oob l.arena hs hz hnpx p.toNat 0 h0 (by omega)
  rw [show chainPrev hs 0 = 0 from rfl] at ht
  unfold xorRead
  rw [if_neg (by simpa using hh0), hhead, ht]

/-- `read` on the empty list raises `IndexError("List is empty")`. -/
theorem xorRead_empty (l : XORList) (hs : List Nat) (w : wf l hs)
    (he : hs = []) (p : Int) :
    xorRead l p = .error .emptyCollection := by
  obtain ⟨hv, hnd, hhead, htail, hnpx⟩ := w
  subst he
  unfold xorRead
  rw [hhead]
  rfl

/-- C10: for every non-empty `CompactLinkedList` and every negative
position `p`, `read(p)` does not raise an error and returns the value
stored at the head of the list — the traversal loop
`while current and count < position` runs zero iterations for every
position `<= 0`, leaving `current` at the head. -/
theorem C10_negative_read_returns_head (l : XORList) (hs : List Nat)
    (w : wf l hs) (hne : hs ≠ []) (p : Int) (hp : p < 0) :
    xorRead l p = .ok ((absVals l hs).getD 0 0) := by
  have h0 : 0 < hs.length := List.length_pos.mpr hne
  have hz : p.toNat = 0 := Int.toNat_of_nonpos (le_of_lt hp)
  have h := xorRead_ok l hs w p (by omega)
  rwa [hz] at h

/-- Witness for C10 at a concrete two-element list and position `-3`. -/
theorem C10_witness :
    wf ⟨[⟨1, 2⟩, ⟨2, 1⟩], 2, 1, [1, 2]⟩ [2, 1] ∧
    xorRead ⟨[⟨1, 2⟩, ⟨2, 1⟩], 2, 1, [1, 2]⟩ (-3) = .ok 2 := by
  refine ⟨by decide, ?_⟩
  have h := C10_negative_read_returns_head ⟨[⟨1, 2⟩, ⟨2, 1⟩], 2, 1, [1, 2]⟩
    [2, 1] (by decide) (by decide) (-3) (by decide)
  rw [h]
  rfl

theorem xor_xor_cancel_left (a b : Nat) : Nat.xor (Nat.xor a b) a = b := by
  show a ^^^ b ^^^ a = b
  rw [Nat.xor_comm a b, Nat.xor_assoc, Nat.xor_self, Nat.xor_zero]

theorem zeroXor (b : Nat) : Nat.xor 0 b = b := Nat.zero_xor b

theorem xorZero (a : Nat) : Nat.xor a 0 = a := Nat.xor_zero a

theorem xorComm (a b : Nat) : Nat.xor a b = Nat.xor b a := Nat.xor_comm a b

theorem map_eraseIdx_comm (f : Nat → Int) :
    ∀ (l : List Nat) (k : Nat), (l.eraseIdx k).map f = (l.map f).eraseIdx k := by
  intro l
  induction l with
  | nil => intro k; rfl
  | cons a l ih =>
    intro k
    cases k with
    | zero => rfl
    | succ k => simp [List.eraseIdx_cons_succ, ih k]

theorem setNpx_setNpx (a : List LNode) (h v v' : Nat) :
    setNpx (setNpx a h v) h v' = setNpx a h v' := by
  have hd := getNode_setNpx_data a h v h
  unfold setNpx
  rw [List.set_set]
  unfold setNpx at hd
  rw [hd]

theorem xorDelete_ok (l : XORList) (hs : List Nat) (w : wf l hs) (p : Int)
    (hp0 : 0 ≤ p) (hp : p.toNat < hs.length) :
    (xorDelete l p).2 = .ok ((absVals l hs).getD p.toNat 0) ∧
    wf (xorDelete l p).1 (hs.eraseIdx p.toNat) ∧
    absVals (xorDelete l p).1 (hs.eraseIdx p.toNat) =
      (absVals l hs).eraseIdx p.toNat := by
  obtain ⟨hv, hnd, hhead, htail, hnpx⟩ := w
  have hz : ∀ h ∈ hs, h ≠ 0 := fun h hm => by have := (hv h hm).1; omega
  have hlen0 : 0 < hs.length := by omega
  have hh0 : l.head ≠ 0 := by rw [hhead]; exact hz _ (getD_mem hlen0)
  rcases Nat.eq_zero_or_pos p.toNat with hm | hm
  · -- head deletion: position 0
    have hp0' : p = 0 := by omega
    subst hp0'
    rw [hm]
    have hnpx0 : (getNode l.arena l.head).npx = hs.getD 1 0 := by
      have h := hnpx 0 hlen0
      rw [show chainPrev hs 0 = 0 from rfl, zeroXor] at h
      rw [← hhead] at h
      simpa using h
    unfold xorDelete
    rw [if_neg (by simpa using hh0), if_pos (by decide)]
    by_cases hN : hs.getD 1 0 = 0
    · have hlen1 : hs.length = 1 := by
        by_contra hcon
        exact hz _ (getD_mem (by omega : 1 < hs.length)) hN
      obtain ⟨a, ha⟩ := List.length_eq_one.mp hlen1
      subst ha
      simp only [hnpx0, hN]
      refine ⟨by rw [hhead]; rfl, ?_, by rfl⟩
      exact ⟨by intro h hmm; simp at hmm, List.nodup_nil, rfl, rfl,
        by intro i hi; simp at hi⟩
    · -- at least two nodes: the successor becomes the head
      have hlen2 : 2 ≤ hs.length := by
        by_contra hcon
        exact hN (List.getD_eq_default _ _ (by omega))
      simp only [hnpx0]
      rw [if_pos (by simpa using hN)]
      have hb1 := hv _ (getD_mem (show 1 < hs.length by omega))
      have hh1 : 1 ≤ l.head ∧ l.head ≤ l.arena.length := by
        rw [hhead]; exact hv _ (getD_mem hlen0)
      have hgd : ∀ i, (hs.eraseIdx 0).getD i 0 = hs.getD (i + 1) 0 := by
        intro i
        rw [getD_eraseIdx _ _ _ _ (by omega)]
        simp
      have hlen' : (hs.eraseIdx 0).length = hs.length - 1 :=
        List.length_eraseIdx_of_lt (by omega)
      refine ⟨?_, ⟨?_, ?_, ?_, ?_, ?_⟩, ?_⟩
      · show Except.ok (getNode l.arena l.head).data =
          Except.ok ((absVals l hs).getD 0 0)
        rw [absVals_getD _ _ _ (by omega), hhead]
      · intro h hmem
        have := hv h (List.mem_of_mem_eraseIdx hmem)
        rw [length_setNpx]
        exact this
      · exact hnd.eraseIdx 0
      · show hs.getD 1 0 = (hs.eraseIdx 0).getD 0 0
        rw [hgd 0]
      · show l.tail = (hs.eraseIdx 0).getD ((hs.eraseIdx 0).length - 1) 0
        rw [htail, hlen', hgd, show hs.length - 1 - 1 + 1 = hs.length - 1 by omega]
      · intro i hi
        rw [hlen'] at hi
        rw [hgd i, hgd (i + 1)]
        cases i with
        | zero =>
          show (getNode (setNpx l.arena (hs.getD 1 0)
            (Nat.xor (getNode l.arena (hs.getD 1 0)).npx l.head)) (hs.getD 1 0)).npx = _
          rw [getNode_setNpx_self _ _ _ hb1.1 hb1.2]
          show Nat.xor (getNode l.arena (hs.getD 1 0)).npx l.head = _
          have hnpxb := hnpx 1 (by omega)
          rw [show chainPrev hs 1 = hs.getD 0 0 from rfl] at hnpxb
          rw [hnpxb, hhead, xor_xor_cancel_left,
            show chainPrev (hs.eraseIdx 0) 0 = 0 from rfl, zeroXor]
        | succ j =>
          have hj2 : j + 2 < hs.length := by omega
          have hne : hs.getD (j + 2) 0 ≠ hs.getD 1 0 :=
            nodup_getD_ne hnd hj2 (by omega) (by omega)
          rw [getNode_setNpx_ne _ _ _ _ hb1.1 (hv _ (getD_mem hj2)).1 hne]
          have hnpxj := hnpx (j + 2) hj2
          rw [show chainPrev hs (j + 2) = hs.getD (j + 1) 0 from rfl] at hnpxj
          rw [hnpxj]
          have : chainPrev (hs.eraseIdx 0) (j + 1) = (hs.eraseIdx 0).getD j 0 := rfl
          rw [this, hgd j]
      · show (hs.eraseIdx 0).map (fun h => (getNode (setNpx l.arena (hs.getD 1 0)
            (Nat.xor (getNode l.arena (hs.getD 1 0)).npx l.head)) h).data) =
          (absVals l hs).eraseIdx 0
        rw [List.map_congr_left
          (fun h _ => getNode_setNpx_data l.arena (hs.getD 1 0) _ h),
          map_eraseIdx_comm]
        rfl
  · -- interior or tail deletion: position >= 1
    have hpne : p ≠ 0 := by omega
    have hC := hv _ (getD_mem hp)
    have hCz : hs.getD p.toNat 0 ≠ 0 := hz _ (getD_mem hp)
    have hPm : p.toNat - 1 < hs.length := by omega
    have hP := hv _ (getD_mem hPm)
    have hPz : hs.getD (p.toNat - 1) 0 ≠ 0 := hz _ (getD_mem hPm)
    have htrav : xorTraverse l.arena 0 l.head p.toNat =
        .ok (hs.getD (p.toNat - 1) 0, hs.getD p.toNat 0) := by
      have h := xorTraverse_ok l.arena hs hz hnpx p.toNat 0 (by omega)
      rw [show chainPrev hs 0 = 0 from rfl, Nat.zero_add,
        show chainPrev hs p.toNat = hs.getD (p.toNat - 1) 0 by
          unfold chainPrev; rw [if_neg (by omega)]] at h
      rw [hhead]
      exact h
    have hnpxC : (getNode l.arena (hs.getD p.toNat 0)).npx =
        Nat.xor (hs.getD (p.toNat - 1) 0) (hs.getD (p.toNat + 1) 0) := by
      have h := hnpx p.toNat hp
      rwa [show chainPrev hs p.toNat = hs.getD (p.toNat - 1) 0 by
        unfold chainPrev; rw [if_neg (by omega)]] at h
    have hnext : Nat.xor (hs.getD (p.toNat - 1) 0)
        (getNode l.arena (hs.getD p.toNat 0)).npx = hs.getD (p.toNat + 1) 0 := by
      rw [hnpxC, xor_xor_cancel]
    have hnpxP : (getNode l.arena (hs.getD (p.toNat - 1) 0)).npx =
        Nat.xor (chainPrev hs (p.toNat - 1)) (hs.getD p.toNat 0) := by
      have h := hnpx (p.toNat - 1) hPm
      rwa [show p.toNat - 1 + 1 = p.toNat by omega] at h
    have hgd : ∀ i, (hs.eraseIdx p.toNat).getD i 0 =
        if i < p.toNat then hs.getD i 0 else hs.getD (i + 1) 0 :=
      fun i => getD_eraseIdx 0 hs p.toNat i hp
    have hlen' : (hs.eraseIdx p.toNat).length = hs.length - 1 :=
      List.length_eraseIdx_of_lt hp
    by_cases hNz : hs.getD (p.toNat + 1) 0 = 0
    · -- the node removed is the tail
      have hlenm : hs.length = p.toNat + 1 := by
        by_contra hcon
        exact hz _ (getD_mem (by omega : p.toNat + 1 < hs.length)) hNz
      have hres : xorDelete l p =
          (⟨setNpx l.arena (hs.getD (p.toNat - 1) 0) (chainPrev hs (p.toNat - 1)),
            l.head, hs.getD (p.toNat - 1) 0, l.nodes.erase (hs.getD p.toNat 0)⟩,
           .ok ((getNode l.arena (hs.getD p.toNat 0)).data)) := by
        have hPzb : (hs.getD (p.toNat - 1) 0 != 0) = true := by simpa using hPz
        unfold xorDelete
        rw [if_neg (by simpa using hh0), if_neg (by simpa using hpne), htrav]
        simp only []
        rw [if_neg (by simpa using hCz)]
        simp only [hnext, hNz, show ((0 : Nat) != 0) = false from rfl,
          Bool.false_eq_true, ite_false, hPzb, eq_self_iff_true, ite_true]
        simp only [hnpxP, hNz, xorZero, xor_cancel_right]
        rw [if_pos (show (hs.getD p.toNat 0 == l.tail) = true by
            rw [htail, show hs.length - 1 = p.toNat by omega]; simp)]
        rw [getNode_setNpx_data]
      rw [hres]
      refine ⟨?_, ⟨?_, ?_, ?_, ?_, ?_⟩, ?_⟩
      · show Except.ok (getNode l.arena (hs.getD p.toNat 0)).data = _
        rw [absVals_getD _ _ _ hp]
      · intro h hmem
        have := hv h (List.mem_of_mem_eraseIdx hmem)
        rw [length_setNpx]
        exact this
      · exact hnd.eraseIdx p.toNat
      · show l.head = (hs.eraseIdx p.toNat).getD 0 0
        rw [hhead, hgd 0, if_pos (by omega)]
      · show hs.getD (p.toNat - 1) 0 =
          (hs.eraseIdx p.toNat).getD ((hs.eraseIdx p.toNat).length - 1) 0
        rw [hlen', hgd, if_pos (by omega),
          show hs.length - 1 - 1 = p.toNat - 1 by omega]
      · intro i hi
        rw [hlen', hlenm] at hi
        -- i < p.toNat; the only changed node sits at index p.toNat - 1
        rcases Nat.lt_or_ge i (p.toNat - 1) with hilt | hige
        · -- untouched interior node
          rw [hgd i, if_pos (by omega), hgd (i + 1), if_pos (by omega)]
          rw [getNode_setNpx_ne _ _ _ _ hP.1 (hv _ (getD_mem (by omega))).1
            (nodup_getD_ne hnd (by omega) hPm (by omega))]
          rw [hnpx i (by omega)]
          congr 1
          · unfold chainPrev
            rcases Nat.eq_zero_or_pos i with h0 | h0
            · simp [h0]
            · rw [if_neg (by omega), if_neg (by omega), hgd, if_pos (by omega)]
        · -- the predecessor of the removed tail
          have hieq : i = p.toNat - 1 := by omega
          subst hieq
          rw [hgd (p.toNat - 1), if_pos (by omega)]
          rw [getNode_setNpx_self _ _ _ hP.1 hP.2]
          show chainPrev hs (p.toNat - 1) = _
          rw [show p.toNat - 1 + 1 = p.toNat by omega]
          rw [hgd p.toNat, if_neg (by omega),
            List.getD_eq_default _ _ (by omega), xorZero]
          unfold chainPrev
          rcases Nat.eq_zero_or_pos (p.toNat - 1) with h0 | h0
          · simp [h0]
          · rw [if_neg (by omega), if_neg (by omega), hgd, if_pos (by omega)]
      · show (hs.eraseIdx p.toNat).map _ = _
        rw [List.map_congr_left (fun h _ => getNode_setNpx_data l.arena
          (hs.getD (p.toNat - 1) 0) (chainPrev hs (p.toNat - 1)) h),
          map_eraseIdx_comm]
        rfl
    · -- an interior node is removed
      have hNlt : p.toNat + 1 < hs.length := by
        by_contra hcon
        exact hNz (List.getD_eq_default _ _ (by omega))
      have hN := hv _ (getD_mem hNlt)
      have hPN : hs.getD (p.toNat + 1) 0 ≠ hs.getD (p.toNat - 1) 0 :=
        nodup_getD_ne hnd hNlt hPm (by omega)
      have hnpxN : (getNode l.arena (hs.getD (p.toNat + 1) 0)).npx =
          Nat.xor (hs.getD p.toNat 0) (hs.getD (p.toNat + 2) 0) := by
        have h := hnpx (p.toNat + 1) hNlt
        rwa [show chainPrev hs (p.toNat + 1) = hs.getD p.toNat 0 from rfl] at h
      have hres : xorDelete l p =
          (⟨setNpx (setNpx l.arena (hs.getD (p.toNat - 1) 0)
              (Nat.xor (chainPrev hs (p.toNat - 1)) (hs.getD (p.toNat + 1) 0)))
              (hs.getD (p.toNat + 1) 0)
              (Nat.xor (hs.getD (p.toNat + 2) 0) (hs.getD (p.toNat - 1) 0)),
            l.head, l.tail, l.nodes.erase (hs.getD p.toNat 0)⟩,
           .ok ((getNode l.arena (hs.getD p.toNat 0)).data)) := by
        have hPzb : (hs.getD (p.toNat - 1) 0 != 0) = true := by simpa using hPz
        have hNzb : (hs.getD (p.toNat + 1) 0 != 0) = true := by simpa using hNz
        unfold xorDelete
        rw [if_neg (by simpa using hh0), if_neg (by simpa using hpne), htrav]
        simp only []
        rw [if_neg (by simpa using hCz)]
        simp only [hnext, hPzb, hNzb, eq_self_iff_true, ite_true]
        simp only [hnpxP, xor_cancel_right]
        rw [getNode_setNpx_self _ _ _ hP.1 hP.2]
        simp only [setNpx_setNpx]
        rw [getNode_setNpx_ne _ _ _ _ hP.1 hN.1 hPN]
        simp only [hnpxN, xor_xor_cancel_left]
        rw [getNode_setNpx_self _ _ _ hN.1 (by rw [length_setNpx]; exact hN.2)]
        simp only [setNpx_setNpx]
        rw [if_neg (show ¬((hs.getD p.toNat 0 == l.tail) = true) by
          rw [htail]
          simpa using nodup_getD_ne hnd hp (by omega : hs.length - 1 < hs.length)
            (by omega))]
        rw [getNode_setNpx_data, getNode_setNpx_data]
      rw [hres]
      refine ⟨?_, ⟨?_, ?_, ?_, ?_, ?_⟩, ?_⟩
      · show Except.ok (getNode l.arena (hs.getD p.toNat 0)).data = _
        rw [absVals_getD _ _ _ hp]
      · intro h hmem
        have := hv h (List.mem_of_mem_eraseIdx hmem)
        rw [length_setNpx, length_setNpx]
        exact this
      · exact hnd.eraseIdx p.toNat
      · show l.head = (hs.eraseIdx p.toNat).getD 0 0
        rw [hhead, hgd 0, if_pos (by omega)]
      · show l.tail = (hs.eraseIdx p.toNat).getD ((hs.eraseIdx p.toNat).length - 1) 0
        rw [htail, hlen', hgd, if_neg (by omega),
          show hs.length - 1 - 1 + 1 = hs.length - 1 by omega]
      · intro i hi
        rw [hlen'] at hi
        rcases Nat.lt_or_ge i (p.toNat - 1) with hilt | hige
        · -- untouched node before the removed one
          rw [hgd i, if_pos (by omega), hgd (i + 1), if_pos (by omega)]
          have hiz := (hv _ (getD_mem (by omega : i < hs.length))).1
          rw [getNode_setNpx_ne _ _ _ _ hN.1 hiz
            (nodup_getD_ne hnd (by omega) hNlt (by omega)),
            getNode_setNpx_ne _ _ _ _ hP.1 hiz
            (nodup_getD_ne hnd (by omega) hPm (by omega))]
          rw [hnpx i (by omega)]
          congr 1
          · unfold chainPrev
            rcases Nat.eq_zero_or_pos i with h0 | h0
            · simp [h0]
            · rw [if_neg (by omega), if_neg (by omega), hgd, if_pos (by omega)]
        · rcases Nat.lt_or_ge i p.toNat with hieq | higt
          · -- the predecessor of the removed node
            have hieq' : i = p.toNat - 1 := by omega
            subst hieq'
            rw [hgd (p.toNat - 1), if_pos (by omega)]
            rw [getNode_setNpx_ne _ _ _ _ hN.1 hP.1 (Ne.symm hPN),
              getNode_setNpx_self _ _ _ hP.1 hP.2]
            show Nat.xor (chainPrev hs (p.toNat - 1)) (hs.getD (p.toNat + 1) 0) = _
            rw [show p.toNat - 1 + 1 = p.toNat by omega]
            rw [hgd p.toNat, if_neg (by omega)]
            congr 1
            · unfold chainPrev
              rcases Nat.eq_zero_or_pos (p.toNat - 1) with h0 | h0
              · simp [h0]
              · rw [if_neg (by omega), if_neg (by omega), hgd, if_pos (by omega)]
          · rcases Nat.eq_or_lt_of_le higt with hieq | higt2
            · -- the successor of the removed node
              have hieq' : i = p.toNat := hieq.symm
              subst hieq'
              rw [hgd p.toNat, if_neg (by omega),
                getNode_setNpx_self _ _ _ hN.1 (by rw [length_setNpx]; exact hN.2)]
              rw [hgd (p.toNat + 1), if_neg (show ¬(p.toNat + 1 < p.toNat) by omega),
                show p.toNat + 1 + 1 = p.toNat + 2 by omega]
              rw [show chainPrev (hs.eraseIdx p.toNat) p.toNat =
                  (hs.eraseIdx p.toNat).getD (p.toNat - 1) 0 by
                unfold chainPrev; rw [if_neg (by omega)]]
              rw [hgd (p.toNat - 1), if_pos (show p.toNat - 1 < p.toNat by omega)]
              show Nat.xor (hs.getD (p.toNat + 2) 0) (hs.getD (p.toNat - 1) 0) =
                Nat.xor (hs.getD (p.toNat - 1) 0) (hs.getD (p.toNat + 2) 0)
              exact xorComm _ _
            · -- untouched node after the removed one
              rw [hgd i, if_neg (show ¬(i < p.toNat) by omega), hgd (i + 1),
                if_neg (show ¬(i + 1 < p.toNat) by omega)]
              have hiz := (hv _ (getD_mem (by omega : i + 1 < hs.length))).1
              rw [getNode_setNpx_ne _ _ _ _ hN.1 hiz
                (nodup_getD_ne hnd (by omega) hNlt (by omega)),
                getNode_setNpx_ne _ _ _ _ hP.1 hiz
                (nodup_getD_ne hnd (by omega) hPm (by omega))]
              rw [hnpx (i + 1) (by omega)]
              congr 1
              · rw [show chainPrev hs (i + 1) = hs.getD i 0 from rfl,
                  show chainPrev (hs.eraseIdx p.toNat) i =
                    (hs.eraseIdx p.toNat).getD (i - 1) 0 by
                  unfold chainPrev; rw [if_neg (by omega)]]
                rw [hgd (i - 1), if_neg (show ¬(i - 1 < p.toNat) by omega),
                  show i - 1 + 1 = i by omega]
      · show (hs.eraseIdx p.toNat).map _ = _
        have hdata : ∀ h ∈ hs.eraseIdx p.toNat,
            (getNode (setNpx (setNpx l.arena (hs.getD (p.toNat - 1) 0)
              (Nat.xor (chainPrev hs (p.toNat - 1)) (hs.getD (p.toNat + 1) 0)))
              (hs.getD (p.toNat + 1) 0)
              (Nat.xor (hs.getD (p.toNat + 2) 0) (hs.getD (p.toNat - 1) 0))) h).data =
            (getNode l.arena h).data := by
          intro h _
          rw [getNode_setNpx_data, getNode_setNpx_data]
        rw [List.map_congr_left hdata, map_eraseIdx_comm]
        rfl

/-- C8: for every non-empty `CompactLinkedList` and every position
`0 <= p < length`, `delete(p)` returns the same value that `read(p)`
returned immediately before the delete, the list shrinks by exactly
one element, and every other element is still readable, at its old
position if before `p` and at its old position minus one if after. -/
theorem C8_delete_returns_read_value (l : XORList) (hs : List Nat)
    (w : wf l hs) (p : Int) (hp0 : 0 ≤ p) (hp : p.toNat < hs.length) :
    (xorDelete l p).2 = xorRead l p ∧
    xorRead l p = .ok ((absVals l hs).getD p.toNat 0) ∧
    wf (xorDelete l p).1 (hs.eraseIdx p.toNat) ∧
    (hs.eraseIdx p.toNat).length = hs.length - 1 ∧
    (∀ q : Nat, q < hs.length - 1 →
      xorRead (xorDelete l p).1 (q : Int) =
        .ok ((absVals l hs).getD (if q < p.toNat then q else q + 1) 0)) := by
  obtain ⟨h1, h2, h3⟩ := xorDelete_ok l hs w p hp0 hp
  have hread := xorRead_ok l hs w p hp
  refine ⟨by rw [h1, hread], hread, h2, List.length_eraseIdx_of_lt hp, ?_⟩
  intro q hq
  have hq' : (q : Int).toNat < (hs.eraseIdx p.toNat).length := by
    rw [List.length_eraseIdx_of_lt hp, Int.toNat_natCast]
    exact hq
  rw [xorRead_ok _ _ h2 _ hq', h3, Int.toNat_natCast]
  have hplen : p.toNat < (absVals l hs).length := by
    simpa [absVals] using hp
  rw [getD_eraseIdx _ _ _ _ hplen]
  by_cases hqp : q < p.toNat <;> simp [hqp]

/-- Witness for C8 on the three-element list holding `2, 1, 3`,
deleting position `1`. -/
theorem C8_witness :
    wf ⟨[⟨1, 1⟩, ⟨2, 1⟩, ⟨3, 1⟩], 2, 3, [1, 2, 3]⟩ [2, 1, 3] ∧
    (0 : Int) ≤ 1 ∧ (1 : Int).toNat < [2, 1, 3].length ∧
    (xorDelete ⟨[⟨1, 1⟩, ⟨2, 1⟩, ⟨3, 1⟩], 2, 3, [1, 2, 3]⟩ 1).2 =
      xorRead ⟨[⟨1, 1⟩, ⟨2, 1⟩, ⟨3, 1⟩], 2, 3, [1, 2, 3]⟩ 1 := by
  refine ⟨by decide, by decide, by decide, ?_⟩
  exact (C8_delete_returns_read_value ⟨[⟨1, 1⟩, ⟨2, 1⟩, ⟨3, 1⟩], 2, 3, [1, 2, 3]⟩
    [2, 1, 3] (by decide) 1 (by decide) (by decide)).1

/-- A `delete` on the empty list raises `IndexError("List is empty")`. -/
theorem xorDelete_empty (l : XORList) (hs : List Nat) (w : wf l hs)
    (he : hs = []) (p : Int) :
    (xorDelete l p).2 = .error .emptyCollection := by
  obtain ⟨hv, hnd, hhead, htail, hnpx⟩ := w
  subst he
  unfold xorDelete
  rw [hhead]
  rfl

/-- A `delete` past the end of a non-empty list raises
`IndexError("Position out of range")` and, in particular, fails. -/
theorem xorDelete_oob (l : XORList) (hs : List Nat) (w : wf l hs)
    (hne : hs ≠ []) (p : Int) (hp : hs.length ≤ p.toNat) :
    xorDelete l p = (l, .error .positionOutOfRange) := by
  obtain ⟨hv, hnd, hhead, htail, hnpx⟩ := w
  have hz : ∀ h ∈ hs, h ≠ 0 := fun h hm => by have := (hv h hm).1; omega
  have h0 : 0 < hs.length := List.length_pos.mpr hne
  have hh0 : l.head ≠ 0 := by rw [hhead]; exact hz _ (getD_mem h0)
  have hpz : p ≠ 0 := by
    intro hc
    subst hc
    omega
  have ht := xorTraverse_oob l.arena hs hz hnpx p.toNat 0 h0 (by omega)
  rw [show chainPrev hs 0 = 0 from rfl] at ht
  unfold xorDelete
  rw [if_neg (by simpa using hh0), if_neg (by simpa using hpz), hhead, ht]

/-- Appending to the arena preserves the chain conditions, so the
traversal lemmas transfer from `l.arena` to `l.arena ++ e`. -/
theorem hnpx_append (l : XORList) (hs : List Nat) (w : wf l hs)
    (e : List LNode) :
    ∀ i < hs.length, (getNode (l.arena ++ e) (hs.getD i 0)).npx =
      Nat.xor (chainPrev hs i) (hs.getD (i + 1) 0) := by
  obtain ⟨hv, hnd, hhead, htail, hnpx⟩ := w
  intro i hi
  have hb := hv _ (getD_mem hi)
  rw [getNode_append _ _ _ hb.1 hb.2]
  exact hnpx i hi

/-- An `insert` with an explicit nonzero position that is still within
the list succeeds (it splices, corrupting the chain, but does not
raise). -/
theorem xorInsert_ok (l : XORList) (hs : List Nat) (w : wf l hs)
    (v : Int) (p : Int) (hpz : p ≠ 0) (hp : p.toNat < hs.length) :
    (xorInsert l v (some p)).2 = none := by
  have w' := w
  obtain ⟨hv, hnd, hhead, htail, hnpx⟩ := w
  have hz : ∀ h ∈ hs, h ≠ 0 := fun h hm => by have := (hv h hm).1; omega
  have h0 : 0 < hs.length := by omega
  have hh0 : l.head ≠ 0 := by rw [hhead]; exact hz _ (getD_mem h0)
  have ht := xorTraverse_ok (l.arena ++ [⟨v, 0⟩]) hs hz
    (hnpx_append l hs w' [⟨v, 0⟩]) p.toNat 0 (by omega)
  rw [show chainPrev hs 0 = 0 from rfl, Nat.zero_add] at ht
  have hc : hs.getD p.toNat 0 ≠ 0 := hz _ (getD_mem hp)
  unfold xorInsert
  rw [if_neg (by simpa using hh0),
    if_neg (by simpa using hpz : ¬((some p == some 0) = true)),
    if_neg (by simp : ¬((some p == (none : Option Int)) = true))]
  rw [show (some p).getD 0 = p from rfl, hhead, ht]
  simp only []
  rw [if_neg (by simpa using hc)]

/-- An `insert` with an explicit nonzero position at or past the length
of a non-empty list raises `IndexError("Position out of range")` — in
particular, insert at position `n` raises instead of appending. -/
theorem xorInsert_oob (l : XORList) (hs : List Nat) (w : wf l hs)
    (hne : hs ≠ []) (v : Int) (p : Int) (hpz : p ≠ 0)
    (hp : hs.length ≤ p.toNat) :
    (xorInsert l v (some p)).2 = some .positionOutOfRange := by
  have w' := w
  obtain ⟨hv, hnd, hhead, htail, hnpx⟩ := w
  have hz : ∀ h ∈ hs, h ≠ 0 := fun h hm => by have := (hv h hm).1; omega
  have h0 : 0 < hs.length := List.length_pos.mpr hne
  have hh0 : l.head ≠ 0 := by rw [hhead]; exact hz _ (getD_mem h0)
  have ht := xorTraverse_oob (l.arena ++ [⟨v, 0⟩]) hs hz
    (hnpx_append l hs w' [⟨v, 0⟩]) p.toNat 0 h0 (by omega)
  rw [show chainPrev hs 0 = 0 from rfl] at ht
  unfold xorInsert
  rw [if_neg (by simpa using hh0),
    if_neg (by simpa using hpz : ¬((some p == some 0) = true)),
    if_neg (by simp : ¬((some p == (none : Option Int)) = true))]
  rw [show (some p).getD 0 = p from rfl, hhead, ht]

/-- `insert` on an empty list never raises, whatever the position. -/
theorem xorInsert_empty (l : XORList) (hs : List Nat) (w : wf l hs)
    (he : hs = []) (v : Int) (pos : Option Int) :
    (xorInsert l v pos).2 = none := by
  obtain ⟨hv, hnd, hhead, htail, hnpx⟩ := w
  subst he
  unfold xorInsert
  rw [hhead]
  rfl

/-- `insert` at position `0` never raises. -/
theorem xorInsert_zero (l : XORList) (v : Int) :
    (xorInsert l v (some 0)).2 = none := by
  unfold xorInsert
  by_cases h1 : l.head == 0
  · rw [if_pos h1]
  · rw [if_neg h1, if_pos (by simp)]

/-- `insert` with no position (append at the tail) never raises. -/
theorem xorInsert_append_tail (l : XORList) (v : Int) :
    (xorInsert l v none).2 = none := by
  unfold xorInsert
  by_cases h1 : l.head == 0
  · rw [if_pos h1]
  · rw [if_neg h1, if_neg (by simp), if_pos (by simp)]

/-- `delete` at a negative position on a non-empty list does not raise:
the traversal loop runs zero iterations, so the head node is the one
removed and its stored value is returned (but, unlike `delete(0)`, the
head reference is not updated). -/
theorem xorDelete_neg (l : XORList) (hs : List Nat) (w : wf l hs)
    (hne : hs ≠ []) (p : Int) (hp : p < 0) :
    (xorDelete l p).2 = .ok ((getNode l.arena l.head).data) := by
  obtain ⟨hv, hnd, hhead, htail, hnpx⟩ := w
  have h0 : 0 < hs.length := List.length_pos.mpr hne
  have hz : ∀ h ∈ hs, h ≠ 0 := fun h hm => by have := (hv h hm).1; omega
  have hh0 : l.head ≠ 0 := by rw [hhead]; exact hz _ (getD_mem h0)
  have hpz : p ≠ 0 := by omega
  have htn : p.toNat = 0 := Int.toNat_eq_zero.mpr (le_of_lt hp)
  have hb1 : (l.head == 0) = false := by simp [hh0]
  have hb2 : (p == 0) = false := by simp [hpz]
  unfold xorDelete
  rw [htn, hb1, hb2]
  simp only [Bool.false_eq_true, ite_false]
  rw [show xorTraverse l.arena 0 l.head 0 = .ok (0, l.head) from rfl]
  simp only []
  rw [hb1]
  simp only [show ((0 : Nat) != 0) = false from rfl, Bool.false_eq_true,
    ite_false]
  split
  · rw [getNode_setNpx_data]
  · rfl

/-- C6 counterexample: on the one-element list (n = 1), `insert` at
position `p = n = 1` raises `PositionOutOfRange` — it does not append.
(The claim "insert at p = n appends and succeeds" is therefore false,
as is "raise exactly when the position exceeds the length".) -/
theorem C6_counterexample :
    wf (xorInsert xorEmpty 1 none).1 [1] ∧
    (xorInsert (xorInsert xorEmpty 1 none).1 2 (some 1)).2 =
      some .positionOutOfRange := by
  exact ⟨by decide, by rfl⟩

/-- C6 as amended: `read`/`delete` raise `EmptyCollection` exactly when
the list is empty; on a non-empty list `read` succeeds exactly for
`p < n` (positions below `0` behaving like `0`) and `delete` never
raises for `p < n` — succeeding for `0 ≤ p < n` and also, without
raising, for `p < 0`, where it returns the head node's stored value —
and both raise `PositionOutOfRange` for `p ≥ n`; `insert` never raises
on an empty list, at position `0`, or with no position (tail append);
an insert with an explicit position `p ≠ 0` on a non-empty list
succeeds exactly for `p < n` and raises `PositionOutOfRange` for
`p ≥ n` (so insert at `p = n` raises rather than appends). -/
theorem C6_amended_error_conditions (l : XORList) (hs : List Nat)
    (w : wf l hs) (p : Int) (v : Int) :
    (hs = [] →
      xorRead l p = .error .emptyCollection ∧
      (xorDelete l p).2 = .error .emptyCollection ∧
      (xorInsert l v (some p)).2 = none) ∧
    (hs ≠ [] → p.toNat < hs.length → ∃ u, xorRead l p = .ok u) ∧
    (hs ≠ [] → 0 ≤ p → p.toNat < hs.length → ∃ u, (xorDelete l p).2 = .ok u) ∧
    (hs ≠ [] → p < 0 →
      (xorDelete l p).2 = .ok ((getNode l.arena l.head).data)) ∧
    (hs ≠ [] → hs.length ≤ p.toNat →
      xorRead l p = .error .positionOutOfRange ∧
      (xorDelete l p).2 = .error .positionOutOfRange) ∧
    (hs ≠ [] → p ≠ 0 → p.toNat < hs.length →
      (xorInsert l v (some p)).2 = none) ∧
    (hs ≠ [] → p ≠ 0 → hs.length ≤ p.toNat →
      (xorInsert l v (some p)).2 = some .positionOutOfRange) ∧
    (xorInsert l v (some 0)).2 = none ∧
    (xorInsert l v none).2 = none := by
  refine ⟨?_, ?_, ?_, ?_, ?_, ?_, ?_, xorInsert_zero l v,
    xorInsert_append_tail l v⟩
  · intro he
    exact ⟨xorRead_empty l hs w he p, xorDelete_empty l hs w he p,
      xorInsert_empty l hs w he v (some p)⟩
  · intro hne hp
    exact ⟨_, xorRead_ok l hs w p hp⟩
  · intro hne hp0 hp
    obtain ⟨h1, _, _⟩ := xorDelete_ok l hs w p hp0 hp
    exact ⟨_, h1⟩
  · intro hne hp
    exact xorDelete_neg l hs w hne p hp
  · intro hne hp
    exact ⟨xorRead_oob l hs w hne p hp, by rw [xorDelete_oob l hs w hne p hp]⟩
  · intro hne hpz hp
    exact xorInsert_ok l hs w v p hpz hp
  · intro hne hpz hp
    exact xorInsert_oob l hs w hne v p hpz hp

/-- Witness for C6 on the one-element list: insert at `p = n = 1`
raises, `read(1)` raises `PositionOutOfRange`, and `delete(-2)` does
not raise and returns the head's value. -/
theorem C6_witness :
    wf ⟨[⟨1, 0⟩], 1, 1, [1]⟩ [1] ∧
    (xorInsert ⟨[⟨1, 0⟩], 1, 1, [1]⟩ 7 (some 1)).2 =
      some .positionOutOfRange ∧
    xorRead ⟨[⟨1, 0⟩], 1, 1, [1]⟩ 1 = .error .positionOutOfRange ∧
    (xorDelete ⟨[⟨1, 0⟩], 1, 1, [1]⟩ (-2)).2 = .ok 1 := by
  have h := C6_amended_error_conditions ⟨[⟨1, 0⟩], 1, 1, [1]⟩ [1]
    (by decide) 1 7
  have h2 := C6_amended_error_conditions ⟨[⟨1, 0⟩], 1, 1, [1]⟩ [1]
    (by decide) (-2) 7
  exact ⟨by decide, h.2.2.2.2.2.2.1 (by decide) (by decide) (by decide),
    (h.2.2.2.2.1 (by decide) (by decide)).1,
    h2.2.2.2.1 (by decide) (by decide)⟩

/-- C7 counterexample: a failed `BTree.delete` does mutate the tree.
On the valid B-tree (t = 2) with root keys `[5]` and leaf children
`[1]` and `[7]`, deleting the absent key `9` rebalances on the descent
(merging the children into the root) before discovering the key is
absent and raising `KeyNotFound`: the failed call collapses the tree to
the single leaf `[1, 5, 7]`. -/
theorem C7_counterexample :
    (btDelete 2 16 (.mk [5] [.mk [1] [] true, .mk [7] [] true] false) 9).2
      = false ∧
    (btDelete 2 16 (.mk [5] [.mk [1] [] true, .mk [7] [] true] false) 9).1.leaf
      = true ∧
    (BNode.mk [5] [.mk [1] [] true, .mk [7] [] true] false).leaf = false ∧
    (btDelete 2 16 (.mk [5] [.mk [1] [] true, .mk [7] [] true] false) 9).1.keys
      = [1, 5, 7] := by
  refine ⟨rfl, rfl, rfl, rfl⟩

/-- C7 as amended: a failed list `read` or `delete` performs no
mutation, and a failed (out-of-range interior) list `insert` splices no
partial node — head, tail and every existing node are unchanged — but
does retain the freshly allocated node in the arena and in the
keep-alive list; a failed `BTree.delete`, however, may mutate the tree
(rebalancing performed on the descent persists, as the counterexample
shows). -/
theorem C7_amended_failed_ops (l : XORList) (d : Int) (pos : Option Int)
    (p : Int) (e e' : ListErr) :
    ((xorInsert l d pos).2 = some e →
      (xorInsert l d pos).1.head = l.head ∧
      (xorInsert l d pos).1.tail = l.tail ∧
      (xorInsert l d pos).1.arena = l.arena ++ [⟨d, 0⟩] ∧
      (xorInsert l d pos).1.nodes = l.nodes ++ [l.arena.length + 1] ∧
      (∀ h, 1 ≤ h → h ≤ l.arena.length →
        getNode (xorInsert l d pos).1.arena h = getNode l.arena h)) ∧
    ((xorDelete l p).2 = .error e' → (xorDelete l p).1 = l) := by
  constructor
  · intro he
    have hchar : (xorInsert l d pos).2 = none ∨
        (xorInsert l d pos).1 =
          ⟨l.arena ++ [⟨d, 0⟩], l.head, l.tail,
            l.nodes ++ [l.arena.length + 1]⟩ := by
      unfold xorInsert
      simp only []
      split
      · exact Or.inl rfl
      · split
        · exact Or.inl rfl
        · split
          · exact Or.inl rfl
          · split
            · exact Or.inr rfl
            · split
              · exact Or.inr rfl
              · exact Or.inl rfl
    rcases hchar with hnone | hstate
    · rw [hnone] at he
      exact absurd he (by simp)
    · rw [hstate]
      exact ⟨rfl, rfl, rfl, rfl,
        fun h hh1 hh2 => getNode_append _ _ _ hh1 hh2⟩
  · intro he
    have hchar : (∃ u, (xorDelete l p).2 = .ok u) ∨ (xorDelete l p).1 = l := by
      unfold xorDelete
      simp only []
      split
      · exact Or.inr rfl
      · split
        · split
          · exact Or.inl ⟨_, rfl⟩
          · exact Or.inl ⟨_, rfl⟩
        · split
          · exact Or.inr rfl
          · split
            · exact Or.inr rfl
            · exact Or.inl ⟨_, rfl⟩
    rcases hchar with ⟨u, hu⟩ | hstate
    · rw [hu] at he
      exact absurd he (by simp)
    · exact hstate

/-- Witness for C7: insert at position 5 into the one-element list
fails and leaves the links untouched while retaining the allocation;
delete at position 9 fails and leaves the state unchanged. -/
theorem C7_witness :
    (xorInsert ⟨[⟨1, 0⟩], 1, 1, [1]⟩ 2 (some 5)).2 = some .positionOutOfRange ∧
    (xorInsert ⟨[⟨1, 0⟩], 1, 1, [1]⟩ 2 (some 5)).1.arena =
      [⟨1, 0⟩] ++ [⟨2, 0⟩] ∧
    (xorInsert ⟨[⟨1, 0⟩], 1, 1, [1]⟩ 2 (some 5)).1.head = 1 ∧
    (xorDelete ⟨[⟨1, 0⟩], 1, 1, [1]⟩ 9).1 = ⟨[⟨1, 0⟩], 1, 1, [1]⟩ := by
  have h := C7_amended_failed_ops ⟨[⟨1, 0⟩], 1, 1, [1]⟩ 2 (some 5) 9
    .positionOutOfRange .positionOutOfRange
  refine ⟨by rfl, (h.1 (by rfl)).2.2.1, (h.1 (by rfl)).1, h.2 (by rfl)⟩

/-! ### B-tree claims -/

/-- C2 (recording the code bug): with `BTree(t=3)` and the insertions
10, 20, 5, 6, 12, 30, 7, 17 of the specification scenario, `read(20)`
is indeed `True`, but `delete(20)` raises
`ValueError("Key not found in tree")` instead of succeeding (the
success flag of the embedded delete is `false`), and `read(10)` is
already `False` after the insertions (the key 10 was lost by the
off-by-one in `_split_child`), contradicting the claimed scenario. -/
theorem C2_scenario_delete_fails :
    btRead 16 (btInsertSeq 3 16 btEmpty [10, 20, 5, 6, 12, 30, 7, 17]) 20
      = true ∧
    (btDelete 3 16 (btInsertSeq 3 16 btEmpty [10, 20, 5, 6, 12, 30, 7, 17])
      20).2 = false ∧
    btRead 16 (btInsertSeq 3 16 btEmpty [10, 20, 5, 6, 12, 30, 7, 17]) 10
      = false := by
  refine ⟨rfl, rfl, rfl⟩

/-- C3 (recording the code bug): with `BTree(t=2)`, after inserting
1, 2, 3 the key 2 is found by `read`, but after the further insert of 4
(which makes the root full and triggers `_split_child`) `read(2)`
returns `False` although 2 was inserted and never deleted: the split
drops the median key. -/
theorem C3_inserted_key_lost :
    btRead 16 (btInsertSeq 2 16 btEmpty [1, 2, 3]) 2 = true ∧
    btRead 16 (btInsertSeq 2 16 btEmpty [1, 2, 3, 4]) 2 = false := by
  exact ⟨rfl, rfl⟩

/-- C4 (recording the code bug): with `BTree(t=2)`, after inserting
1, 2, 3 the structural invariant holds, but after the further insert of
4 it is violated: the root's first child is left with `0` keys, below
the required minimum of `t - 1 = 1` (and internal-node child counts are
broken likewise by the same split). -/
theorem C4_invariant_broken_after_insert :
    btOk 2 16 (btInsertSeq 2 16 btEmpty [1, 2, 3]) = true ∧
    btOk 2 16 (btInsertSeq 2 16 btEmpty [1, 2, 3, 4]) = false ∧
    ((btInsertSeq 2 16 btEmpty [1, 2, 3, 4]).children.getD 0
      default).keys.length = 0 := by
  refine ⟨rfl, rfl, rfl⟩

theorem getLastD_eq_getD {α : Type} (d : α) (l : List α) :
    l.getLastD d = l.getD (l.length - 1) d := by
  rw [List.getLastD_eq_getLast?, List.getLast?_eq_getElem?,
    List.getD_eq_getD_get?, List.get?_eq_getElem?]

theorem getD_insertIdx_self {α : Type} (d : α) (l : List α) (x : α)
    (n : Nat) (hn : n ≤ l.length) :
    (l.insertIdx n x).getD n d = x := by
  rw [List.getD_eq_getElem _ _ (by rw [List.length_insertIdx _ _ hn]; omega),
    List.getElem_insertIdx_self _ _ _ hn]

theorem getD_insertIdx_of_lt {α : Type} (d : α) (l : List α) (x : α)
    (n k : Nat) (hk : k < n) (hn : n ≤ l.length) :
    (l.insertIdx n x).getD k d = l.getD k d := by
  have hkl : k < l.length := by omega
  rw [List.getD_eq_getElem _ _ (by rw [List.length_insertIdx _ _ hn]; omega),
    List.getElem_insertIdx_of_lt _ _ _ _ hk hkl,
    List.getD_eq_getElem _ _ hkl]

theorem getD_insertIdx_add_succ {α : Type} (d : α) (l : List α) (x : α)
    (n k : Nat) (hn : n ≤ l.length) :
    (l.insertIdx n x).getD (n + k + 1) d = l.getD (n + k) d := by
  rcases Nat.lt_or_ge (n + k) l.length with hlt | hge
  · rw [List.getD_eq_getElem _ _ (by rw [List.length_insertIdx _ _ hn]; omega),
      List.getElem_insertIdx_add_succ _ _ _ _ hlt,
      List.getD_eq_getElem _ _ hlt]
  · have hlen : (l.insertIdx n x).length = l.length + 1 :=
      List.length_insertIdx _ _ hn
    rw [List.getD_eq_default _ _ (by omega), List.getD_eq_default _ _ hge]

/-- C1 counterexample: with `t = 2` and a full leaf child `[1, 2, 3]`,
the embedded `_split_child` loses the median key `2`: it is present in
the child before the split and is afterwards neither in the parent's
keys, nor in either resulting child — refuting "no key of the original
node is lost" (and with it the claimed "upper t keys"/median-promotion
description; the new sibling receives one key, `[3]`, not `t = 2`). -/
theorem C1_counterexample :
    ((BNode.mk [] [.mk [1, 2, 3] [] true] false).children.getD 0
      default).keys.contains 2 = true ∧
    (splitChild 2 (.mk [] [.mk [1, 2, 3] [] true] false) 0).keys.contains 2
      = false ∧
    ((splitChild 2 (.mk [] [.mk [1, 2, 3] [] true] false) 0).children.map
      fun c => c.keys.contains 2) = [false, false] ∧
    (splitChild 2 (.mk [] [.mk [1, 2, 3] [] true] false) 0).keys = [1] ∧
    ((splitChild 2 (.mk [] [.mk [1, 2, 3] [] true] false) 0).children.map
      BNode.keys) = [[], [3]] := by
  refine ⟨rfl, rfl, rfl, rfl, rfl⟩

theorem keys_mk (ks : List Int) (cs : List BNode) (lf : Bool) :
    (BNode.mk ks cs lf).keys = ks := rfl

theorem children_mk (ks : List Int) (cs : List BNode) (lf : Bool) :
    (BNode.mk ks cs lf).children = cs := rfl

theorem leaf_mk (ks : List Int) (cs : List BNode) (lf : Bool) :
    (BNode.mk ks cs lf).leaf = lf := rfl

/-- C1 as amended: for a full child (2t-1 keys), `_split_child` moves
the upper `t - 1` keys (not `t`) and, if internal, the upper `t`
children (not `t + 1`) to the new sibling, promotes the key at index
`t - 2` (not the median) into the parent at position `i`, leaves the
original child with its lowest `t - 2` keys, inserts the new sibling
immediately after the original in the child sequence (other children
keep their relative order), and loses exactly the median key (index
`t - 1`): the keys of the two resulting children together with the
promoted key are the original keys with the median erased. -/
theorem C1_amended_split (t : Nat) (x : BNode) (i : Nat) (ht : 2 ≤ t)
    (hi : i < x.children.length) (_hik : i ≤ x.keys.length)
    (hy : (x.children.getD i default).keys.length = 2 * t - 1) :
    x.keys.insertIdx i ((x.children.getD i default).keys.getD (t - 2) 0)
      = (splitChild t x i).keys ∧
    (splitChild t x i).children.length = x.children.length + 1 ∧
    ((splitChild t x i).children.getD i default).keys
      = (x.children.getD i default).keys.take (t - 2) ∧
    ((splitChild t x i).children.getD (i + 1) default).keys
      = (x.children.getD i default).keys.drop t ∧
    ((splitChild t x i).children.getD (i + 1) default).keys.length = t - 1 ∧
    ((x.children.getD i default).leaf = false →
      ((splitChild t x i).children.getD i default).children
        = (x.children.getD i default).children.take t ∧
      ((splitChild t x i).children.getD (i + 1) default).children
        = (x.children.getD i default).children.drop t) ∧
    (∀ j, j < i → (splitChild t x i).children.getD j default
      = x.children.getD j default) ∧
    (∀ j, i + 1 < j → j < x.children.length + 1 →
      (splitChild t x i).children.getD j default
        = x.children.getD (j - 1) default) ∧
    ((splitChild t x i).children.getD i default).keys ++
      ((x.children.getD i default).keys.getD (t - 2) 0) ::
      ((splitChild t x i).children.getD (i + 1) default).keys
      = (x.children.getD i default).keys.eraseIdx (t - 1) := by
  have hyk : (x.children.getD i default).keys.length = 2 * t - 1 := hy
  have hlen_take : ((x.children.getD i default).keys.take (t - 1)).length
      = t - 1 := by
    rw [List.length_take]
    omega
  have hprom : ((x.children.getD i default).keys.take (t - 1)).getLastD 0
      = (x.children.getD i default).keys.getD (t - 2) 0 := by
    rw [getLastD_eq_getD, hlen_take, show t - 1 - 1 = t - 2 by omega,
      getD_take _ _ _ _ (by omega)]
  have hykeys : ((x.children.getD i default).keys.take (t - 1)).dropLast
      = (x.children.getD i default).keys.take (t - 2) := by
    rw [List.dropLast_eq_take, hlen_take, List.take_take,
      show min (t - 1 - 1) (t - 1) = t - 2 by omega]
  have hset_len : (x.children.set i (BNode.mk
      (((x.children.getD i default).keys.take (t - 1)).dropLast)
      (if (x.children.getD i default).leaf = true
        then (x.children.getD i default).children
        else (x.children.getD i default).children.take t)
      (x.children.getD i default).leaf)).length = x.children.length := by
    rw [List.length_set]
  simp only [splitChild, keys_mk, children_mk, leaf_mk]
  refine ⟨?_, ?_, ?_, ?_, ?_, ?_, ?_, ?_, ?_⟩
  · rw [hprom]
  · rw [List.length_insertIdx _ _ (by rw [List.length_set]; omega),
      List.length_set]
  · rw [getD_insertIdx_of_lt _ _ _ _ _ (by omega)
        (by rw [List.length_set]; omega),
      getD_set_self _ _ _ _ hi]
    exact hykeys
  · rw [getD_insertIdx_self _ _ _ _ (by rw [List.length_set]; omega)]
    rfl
  · rw [getD_insertIdx_self _ _ _ _ (by rw [List.length_set]; omega)]
    simp only [keys_mk]
    rw [List.length_drop]
    omega
  · intro hleaf
    constructor
    · rw [getD_insertIdx_of_lt _ _ _ _ _ (by omega)
          (by rw [List.length_set]; omega),
        getD_set_self _ _ _ _ hi, children_mk, hleaf]
      simp only [Bool.false_eq_true, ite_false]
    · rw [getD_insertIdx_self _ _ _ _ (by rw [List.length_set]; omega),
        children_mk, hleaf]
      simp only [Bool.false_eq_true, ite_false]
  · intro j hj
    rw [getD_insertIdx_of_lt _ _ _ _ _ (by omega)
        (by rw [List.length_set]; omega),
      getD_set_ne _ _ _ _ _ (by omega)]
  · intro j hj hjlen
    rw [show j = (i + 1) + (j - i - 2) + 1 by omega,
      getD_insertIdx_add_succ _ _ _ _ _ (by rw [List.length_set]; omega),
      show i + 1 + (j - i - 2) = j - 1 by omega,
      getD_set_ne _ _ _ _ _ (by omega),
      show j - 1 + 1 - 1 = j - 1 by omega]
  · rw [getD_insertIdx_of_lt _ _ _ _ _ (by omega)
        (by rw [List.length_set]; omega),
      getD_set_self _ _ _ _ hi,
      getD_insertIdx_self _ _ _ _ (by rw [List.length_set]; omega)]
    simp only [keys_mk]
    rw [hykeys, List.eraseIdx_eq_take_drop_succ,
      show t - 1 + 1 = t by omega,
      show (x.children.getD i default).keys.take (t - 1)
        = (x.children.getD i default).keys.take (t - 2) ++
          [(x.children.getD i default).keys.getD (t - 2) 0] from ?_,
      List.append_assoc]
    · rfl
    · rw [List.getD_eq_getElem _ _
        (show t - 2 < (x.children.getD i default).keys.length by omega)]
      have h1 : t - 1 = t - 2 + 1 := by omega
      calc List.take (t - 1) (x.children.getD i default).keys
          = List.take (t - 2 + 1) (x.children.getD i default).keys := by
            rw [← h1]
        _ = List.take (t - 2) (x.children.getD i default).keys ++
            ((x.children.getD i default).keys[t - 2]?).toList :=
            List.take_succ
        _ = List.take (t - 2) (x.children.getD i default).keys ++
            [(x.children.getD i default).keys[t - 2]] := by
            rw [List.getElem?_eq_getElem (by omega)]
            rfl

/-- Witness for C1 on `t = 2`, parent `[10]` with full first child
`[1, 2, 3]`. -/
theorem C1_witness :
    (splitChild 2 (.mk [10] [.mk [1, 2, 3] [] true, .mk [20] [] true]
      false) 0).keys = [1, 10] ∧
    ((splitChild 2 (.mk [10] [.mk [1, 2, 3] [] true, .mk [20] [] true]
      false) 0).children.getD 1 default).keys = [3] := by
  have h := C1_amended_split 2
    (.mk [10] [.mk [1, 2, 3] [] true, .mk [20] [] true] false) 0
    (by decide) (by decide) (by decide) (by rfl)
  exact ⟨h.1.symm.trans (by rfl), h.2.2.2.1.trans (by rfl)⟩

theorem oLt_self (k : Int) : oLt (some k) (some k) = false := by
  simp [oLt]

theorem rbInsert_empty_eq (k : Int) :
    rbInsert rbEmpty k =
      ⟨[nilNode, ⟨some k, false, some 1, some 1, none⟩], 2⟩ := by
  simp [rbInsert, rbEmpty, rbDescend, rbFixInsert, setP, setL, setR, setC,
    setArena, nd, pOf, lOf, rOf, oLt_self, nilNode]

theorem rbInsert_again_eq (k : Int) :
    rbInsert ⟨[nilNode, ⟨some k, false, some 1, some 1, none⟩], 2⟩ k =
      ⟨[nilNode, ⟨some k, false, some 1, some 3, none⟩,
        ⟨some k, true, some 1, some 1, some 2⟩], 2⟩ := by
  simp [rbInsert, rbDescend, rbFixInsert, setP, setL, setR, setC,
    setArena, nd, pOf, lOf, rOf, oLt_self, nilNode]

theorem obeq_self (k : Int) : (some k == some k) = true := by
  simp

theorem rbDelete_two_eq (k : Int) :
    rbDelete ⟨[nilNode, ⟨some k, false, some 1, some 3, none⟩,
        ⟨some k, true, some 1, some 1, some 2⟩], 2⟩ k =
      (⟨[nilNode, ⟨some k, false, some 1, some 3, none⟩,
        ⟨some k, false, some 1, some 1, none⟩], 3⟩, true) := by
  simp [rbDelete, rbFind, rbDeleteNode, rbTransplant, rbFixDelete, rbMinimum,
    setP, setL, setR, setC, setArena, nd, pOf, lOf, rOf, oLt_self, obeq_self, nilNode]

theorem rbDelete_three_eq (k : Int) :
    rbDelete ⟨[nilNode, ⟨some k, false, some 1, some 3, none⟩,
        ⟨some k, false, some 1, some 1, none⟩], 3⟩ k =
      (⟨[nilNode, ⟨some k, false, some 1, some 3, none⟩,
        ⟨some k, false, some 1, some 1, none⟩], 1⟩, true) := by
  simp [rbDelete, rbFind, rbDeleteNode, rbTransplant, rbFixDelete, rbMinimum,
    setP, setL, setR, setC, setArena, nd, pOf, lOf, rOf, oLt_self, obeq_self, nilNode]

theorem countKey_two (k : Int) :
    countKey ⟨[nilNode, ⟨some k, false, some 1, some 3, none⟩,
        ⟨some k, true, some 1, some 1, some 2⟩], 2⟩ 8 2 k = 2 := by
  simp [countKey, nd, lOf, rOf, obeq_self, nilNode]

theorem countKey_afterFirst (k : Int) :
    countKey ⟨[nilNode, ⟨some k, false, some 1, some 3, none⟩,
        ⟨some k, false, some 1, some 1, none⟩], 3⟩ 8 3 k = 1 := by
  simp [countKey, nd, lOf, rOf, obeq_self, nilNode]

theorem countKey_afterSecond (k : Int) :
    countKey ⟨[nilNode, ⟨some k, false, some 1, some 3, none⟩,
        ⟨some k, false, some 1, some 1, none⟩], 1⟩ 8 1 k = 0 := by
  simp [countKey, nd, lOf, rOf, nilNode]

theorem rbRead_afterFirst (k : Int) :
    rbRead ⟨[nilNode, ⟨some k, false, some 1, some 3, none⟩,
        ⟨some k, false, some 1, some 1, none⟩], 3⟩ k = true := by
  simp [rbRead, rbFind, nd, lOf, rOf, oLt_self, obeq_self, nilNode]

/-- C9: in the red-black tree, inserting a key equal to one already present
adds a second node (equal keys descend right), so after inserting the same
key twice the key is counted twice; one delete removes exactly one of the
two nodes, read still finds the key, and a second delete succeeds and
removes the last copy. Holds for every key value. -/
theorem C9_duplicate_keys (k : Int) :
    countKey (rbInsert (rbInsert rbEmpty k) k) 8
      (rbInsert (rbInsert rbEmpty k) k).root k = 2 ∧
    (rbDelete (rbInsert (rbInsert rbEmpty k) k) k).2 = true ∧
    countKey (rbDelete (rbInsert (rbInsert rbEmpty k) k) k).1 8
      (rbDelete (rbInsert (rbInsert rbEmpty k) k) k).1.root k = 1 ∧
    rbRead (rbDelete (rbInsert (rbInsert rbEmpty k) k) k).1 k = true ∧
    (rbDelete (rbDelete (rbInsert (rbInsert rbEmpty k) k) k).1 k).2 = true ∧
    countKey (rbDelete (rbDelete (rbInsert (rbInsert rbEmpty k) k) k).1 k).1 8
      (rbDelete (rbDelete (rbInsert (rbInsert rbEmpty k) k) k).1 k).1.root k = 0 := by
  rw [rbInsert_empty_eq, rbInsert_again_eq, rbDelete_two_eq]
  refine ⟨countKey_two k, rfl, ?_⟩
  rw [show ((⟨[nilNode, ⟨some k, false, some 1, some 3, none⟩,
        ⟨some k, false, some 1, some 1, none⟩], 3⟩ : RBT), true).1 =
      (⟨[nilNode, ⟨some k, false, some 1, some 3, none⟩,
        ⟨some k, false, some 1, some 1, none⟩], 3⟩ : RBT) from rfl]
  rw [rbDelete_three_eq]
  exact ⟨countKey_afterFirst k, rbRead_afterFirst k, rfl, countKey_afterSecond k⟩
